import Mathlib

/-!
Verification of the certification-catalog tooling (`scripts/import_from_original.py`,
`scripts/rebuild_index.py`, `scripts/validate_catalog.py`) against its specification.

The Python code is shallowly embedded: strings are Lean `String`s (lists of
characters); Python `set`s threaded through the code are embedded as lists used
only through membership; Python dictionaries decoded from YAML are embedded as
association lists of `PyVal`ues.  Character-level operations (`str.lower`,
`str.strip`, `str.title`, regular expressions used by the scripts) are embedded
over ASCII code points, which is the alphabet the catalog data and the spec's
examples use.
-/

namespace CyberCerts

/-! ## Character-level primitives (Python string operations, ASCII semantics) -/

/-- Python `str.lower` per character: maps A-Z (65-90) to a-z, anything else kept. -/
def lowerChar (c : Char) : Char :=
  if 65 ≤ c.toNat ∧ c.toNat ≤ 90 then Char.ofNat (c.toNat + 32) else c

/-- Python `str.title`-style uppercasing per character: maps a-z to A-Z. -/
def upperChar (c : Char) : Char :=
  if 97 ≤ c.toNat ∧ c.toNat ≤ 122 then Char.ofNat (c.toNat - 32) else c

/-- ASCII letter (either case), as Python `str.isalpha` sees ASCII input. -/
def isAsciiAlpha (c : Char) : Bool :=
  (65 ≤ c.toNat && c.toNat ≤ 90) || (97 ≤ c.toNat && c.toNat ≤ 122)

/-- ASCII decimal digit, the characters the regex class `\d` matches on ASCII text. -/
def isDigitChar (c : Char) : Bool :=
  48 ≤ c.toNat && c.toNat ≤ 57

/-- lowercase ASCII letter or digit: the class `[a-z0-9]` of `slugify`'s regex. -/
def isSlugChar (c : Char) : Bool :=
  (97 ≤ c.toNat && c.toNat ≤ 122) || isDigitChar c

/-- Python whitespace (`str.split`/`str.strip` default, regex `\s` on ASCII):
space, tab, newline, carriage return, vertical tab, form feed. -/
def isPySpace (c : Char) : Bool :=
  c.toNat == 32 || c.toNat == 9 || c.toNat == 10 || c.toNat == 13 ||
    c.toNat == 11 || c.toNat == 12

/-- Drop the longest suffix of `l` all of whose characters satisfy `p`
(the right half of Python `str.strip`). -/
def dropRightWhile (p : Char → Bool) (l : List Char) : List Char :=
  (l.reverse.dropWhile p).reverse

/-- Python `str.strip()` (no argument: strips whitespace at both ends). -/
def pyStripChars (l : List Char) : List Char :=
  dropRightWhile isPySpace (l.dropWhile isPySpace)

/-- Python `str.strip()` on a `String`. -/
def pyStrip (s : String) : String :=
  ⟨pyStripChars s.data⟩

/-- Python `str.lower()` on a `String` (ASCII). -/
def pyLower (s : String) : String :=
  ⟨s.data.map lowerChar⟩

/-- Contiguous-sublist test on character lists (Python `needle in haystack`):
true when `needle` occurs, as a block, somewhere in the second list. -/
def infixOf (needle : List Char) : List Char → Bool
  | [] => needle.isEmpty
  | c :: rest => needle.isPrefixOf (c :: rest) || infixOf needle rest

/-- Substring test: Python `needle in haystack` on strings. -/
def strContains (haystack needle : String) : Bool :=
  infixOf needle.data haystack.data

/-! ## `slugify` (import_from_original.py lines 133-137)

```python
def slugify(value: str) -> str:
    value = value.lower().strip()
    value = re.sub(r"[^a-z0-9]+", "-", value)
    value = value.strip("-")
    return value or "cert"
```
-/

/-- The substitution `re.sub(r"[^a-z0-9]+", "-", value)`: every maximal run of
characters outside `[a-z0-9]` is replaced by one hyphen.  The boolean state
records whether the previous character was inside such a run. -/
def collapseRuns : List Char → Bool → List Char
  | [], _ => []
  | c :: rest, inRun =>
    if isSlugChar c then c :: collapseRuns rest false
    else if inRun then collapseRuns rest true
    else '-' :: collapseRuns rest true

/-- Python `value.strip("-")`. -/
def stripDashes (l : List Char) : List Char :=
  dropRightWhile (· == '-') (l.dropWhile (· == '-'))

/-- `slugify` on character lists. -/
def slugifyChars (l : List Char) : List Char :=
  let lowered := pyStripChars (l.map lowerChar)
  let collapsed := stripDashes (collapseRuns lowered false)
  if collapsed = [] then ['c', 'e', 'r', 't'] else collapsed

/-- `slugify` from import_from_original.py. -/
def slugify (s : String) : String :=
  ⟨slugifyChars s.data⟩

/-! ## Decimal rendering of naturals (Python `str(idx)` / f-string interpolation) -/

/-- The decimal digit characters. -/
def digitChar (d : Nat) : Char :=
  match d with
  | 0 => '0' | 1 => '1' | 2 => '2' | 3 => '3' | 4 => '4'
  | 5 => '5' | 6 => '6' | 7 => '7' | 8 => '8' | _ => '9'

/-- Standard decimal digits of `n`, most significant first; the fuel argument
only makes the recursion structural, `n < fuel` always holds at the call site. -/
def natDigitsAux : Nat → Nat → List Char
  | 0, _ => []
  | fuel + 1, n =>
    if n < 10 then [digitChar n]
    else natDigitsAux fuel (n / 10) ++ [digitChar (n % 10)]

/-- Decimal representation of a natural, as Python's `str` renders it. -/
def natDigits (n : Nat) : List Char :=
  natDigitsAux (n + 1) n

/-! ## `unique_id` (import_from_original.py lines 140-149)

```python
def unique_id(base: str, used: set[str]) -> str:
    if base not in used:
        used.add(base)
        return base
    idx = 2
    while f"{base}-{idx}" in used:
        idx += 1
    candidate = f"{base}-{idx}"
    used.add(candidate)
    return candidate
```

The mutable `used` set is embedded as a list consumed through membership and
returned updated.  The `while` loop is embedded with fuel `used.length + 1`:
`findFreeIdxAux_spec` below proves that this fuel always suffices, so the
returned index is exactly the loop's first free index. -/

/-- The candidate string `f"{base}-{idx}"`. -/
def candidateId (base : String) (idx : Nat) : String :=
  base ++ "-" ++ ⟨natDigits idx⟩

/-- The `while f"{base}-{idx}" in used: idx += 1` loop, starting at `k` with
the given fuel. -/
def findFreeIdxAux (base : String) (used : List String) : Nat → Nat → Nat
  | 0, k => k
  | fuel + 1, k => if candidateId base k ∈ used then findFreeIdxAux base used fuel (k + 1) else k

/-- The first index `k ≥ 2` with `f"{base}-{k}"` unused (the loop's result). -/
def findFreeIdx (base : String) (used : List String) : Nat :=
  findFreeIdxAux base used (used.length + 1) 2

/-- `unique_id`: returns the chosen id and the updated used-id set. -/
def unique_id (base : String) (used : List String) : String × List String :=
  if base ∈ used then
    let c := candidateId base (findFreeIdx base used)
    (c, c :: used)
  else (base, base :: used)

/-! ## `parse_provider` (import_from_original.py lines 152-169) -/

/-- `HOST_PROVIDER_MAP`, in the source's (= Python dict iteration) order. -/
def HOST_PROVIDER_MAP : List (String × String) :=
  [("offensive-security.com", "OffSec"),
   ("giac.org", "GIAC"),
   ("isaca.org", "ISACA"),
   ("isc2.org", "ISC2"),
   ("comptia.org", "CompTIA"),
   ("learn.microsoft.com", "Microsoft"),
   ("aws.amazon.com", "AWS"),
   ("cloud.google.com", "Google Cloud"),
   ("cisco.com", "Cisco"),
   ("hackthebox.com", "Hack The Box"),
   ("academy.hackthebox.com", "Hack The Box"),
   ("certifications.tcm-sec.com", "TCM Security"),
   ("tcm-sec.com", "TCM Security"),
   ("pecb.com", "PECB"),
   ("iapp.org", "IAPP"),
   ("linuxfoundation.org", "Linux Foundation"),
   ("training.linuxfoundation.org", "Linux Foundation"),
   ("sans.org", "SANS"),
   ("sabsa.org", "SABSA"),
   ("pmi.org", "PMI"),
   ("axelos.com", "Axelos"),
   ("fortinet.com", "Fortinet"),
   ("paloaltonetworks.com", "Palo Alto Networks"),
   ("ec-council.org", "EC-Council"),
   ("elearnsecurity.com", "INE"),
   ("ine.com", "INE"),
   ("securityblue.team", "Security Blue Team"),
   ("cyberdefenders.org", "CyberDefenders"),
   ("scrum.org", "Scrum.org"),
   ("zachman.com", "Zachman")]

/-- A character CPython's `urlsplit` accepts inside a URL scheme
(letters, digits, `+`, `-`, `.`). -/
def isSchemeChar (c : Char) : Bool :=
  isAsciiAlpha c || isDigitChar c || c == '+' || c == '-' || c == '.'

/-- CPython `urlsplit` scheme splitting: when the text before the first `:` is a
non-empty run of scheme characters starting with a letter, drop it and the colon. -/
def dropScheme (u : List Char) : List Char :=
  let pre := u.takeWhile (· ≠ ':')
  if pre.length < u.length ∧ pre ≠ [] ∧ isAsciiAlpha (pre.headD ' ') ∧
      pre.all isSchemeChar then
    u.drop (pre.length + 1)
  else u

/-- `urlparse(url).netloc`: after scheme removal, the text between a leading
`//` and the next `/`, `?` or `#`; empty when the remainder has no leading `//`.
This embeds the behaviour of the standard library collaborator `urllib.parse`
for the URLs the catalog holds. -/
def netlocOf (url : String) : String :=
  let u := dropScheme url.data
  if u.take 2 = ['/', '/'] then
    ⟨(u.drop 2).takeWhile (fun c => c ≠ '/' ∧ c ≠ '?' ∧ c ≠ '#')⟩
  else ""

/-- Python `host.replace("www.", "")`: removes every occurrence of the
four-character needle `www.`, scanning left to right. -/
def removeWWW : List Char → List Char
  | 'w' :: 'w' :: 'w' :: '.' :: rest => removeWWW rest
  | c :: rest => c :: removeWWW rest
  | [] => []

/-- The `for key, provider in HOST_PROVIDER_MAP.items()` loop: first entry whose
key the host equals or ends with `"." + key`. -/
def lookupProvider (host : String) : List (String × String) → Option String
  | [] => none
  | (key, provider) :: rest =>
    if host == key || ("." ++ key).data.isSuffixOf host.data then some provider
    else lookupProvider host rest

/-- Python `host.split(".")` (split at every dot, empty pieces kept). -/
def splitOnChar (sep : Char) : List Char → List (List Char)
  | [] => [[]]
  | c :: rest =>
    if c = sep then [] :: splitOnChar sep rest
    else
      match splitOnChar sep rest with
      | [] => [[c]]
      | piece :: pieces => (c :: piece) :: pieces

/-- Python `str.title()` on ASCII: uppercase a letter that does not follow a
letter, lowercase a letter that does; the boolean records whether the previous
character was a letter. -/
def titleChars : List Char → Bool → List Char
  | [], _ => []
  | c :: rest, prevAlpha =>
    (if isAsciiAlpha c then (if prevAlpha then lowerChar c else upperChar c) else c)
      :: titleChars rest (isAsciiAlpha c)

/-- `base.replace("-", " ").title()` from the fallback branch. -/
def titleOfLabel (base : List Char) : String :=
  ⟨titleChars (base.map fun c => if c = '-' then ' ' else c) false⟩

/-- `parts[-2] if len(parts) >= 2 else host`. -/
def secondLevelLabel (host : List Char) : List Char :=
  match (splitOnChar '.' host).reverse with
  | _ :: b :: _ => b
  | _ => host

/-- Lines 154-158: the lowercased netloc with every `www.` occurrence removed
(`host.replace("www.", "")`). -/
def hostOfUrl (url : String) : String :=
  ⟨removeWWW (pyLower (netlocOf url)).data⟩

/-- `parse_provider` from import_from_original.py.  (The `try/except` around
`urlparse` is not observable here: the embedded `netlocOf` is total, and the
"Unknown" sentinel arises from the empty-base branch exactly as at line 169.) -/
def parse_provider (url : String) : String :=
  match lookupProvider (hostOfUrl url) HOST_PROVIDER_MAP with
  | some provider => provider
  | none =>
    if secondLevelLabel (hostOfUrl url).data ≠ [] then
      titleOfLabel (secondLevelLabel (hostOfUrl url).data)
    else "Unknown"

/-! ## Tooltip parsing (import_from_original.py lines 172-205) -/

/-- `tooltip.replace("\\n", "\n")`: every literal backslash-n becomes a newline. -/
def unescapeNewlines : List Char → List Char
  | '\\' :: 'n' :: rest => '\n' :: unescapeNewlines rest
  | c :: rest => c :: unescapeNewlines rest
  | [] => []

/-- `" ".join(raw.split())`: maximal whitespace-free words of a line, in order.
`acc` is the current word, reversed. -/
def wordsAux (acc : List Char) : List Char → List (List Char)
  | [] => if acc = [] then [] else [acc.reverse]
  | c :: rest =>
    if isPySpace c then
      if acc = [] then wordsAux [] rest else acc.reverse :: wordsAux [] rest
    else wordsAux (c :: acc) rest

/-- Collapse internal whitespace of one raw line to single spaces, trimming ends. -/
def collapseSpaces (l : List Char) : List Char :=
  List.intercalate [' '] (wordsAux [] l)

/-- `normalize_lines` from import_from_original.py: unescape `\\n`, split on
newlines, collapse whitespace per line, keep non-blank lines. -/
def normalize_lines (tooltip : String) : List String :=
  ((splitOnChar '\n' (unescapeNewlines tooltip.data)).map collapseSpaces).filterMap
    (fun line => if line = [] then none else some ⟨line⟩)

/-- One of the case-insensitive price cues
`(\$|€|£|free|subscription|travel|member|exam)` occurs in the line. -/
def hasPriceCue (line : String) : Bool :=
  let low := (pyLower line).data
  '$' ∈ low || '€' ∈ low || '£' ∈ low ||
    infixOf "free".data low || infixOf "subscription".data low ||
    infixOf "travel".data low || infixOf "member".data low || infixOf "exam".data low

/-- Numeric value of a digit character. -/
def digitVal (c : Char) : Nat := c.toNat - 48

/-- Value of `group(1).replace(",", "")` truncated to an integer: the digits of
the integer part (commas removed); the optional fraction `\.[0-9]+` is dropped
by the truncation `int(float(...))`.  (Embeds the conversion exactly, floating
point rounding aside, which cannot surface for catalog-sized prices.) -/
def amountOfMatch (intPart : List Char) : Nat :=
  (intPart.filter isDigitChar).foldl (fun acc c => acc * 10 + digitVal c) 0

/-- `re.search(r"\$\s*([0-9][0-9,]*(?:\.[0-9]+)?)", label)`: first `$` followed,
after optional whitespace, by a digit; the group is the run of digits and commas
there.  Returns the truncated amount of the first such match. -/
def findDollarAmount : List Char → Option Nat
  | [] => none
  | '$' :: rest =>
    let afterWs := rest.dropWhile isPySpace
    match afterWs with
    | d :: _ =>
      if isDigitChar d then
        some (amountOfMatch (afterWs.takeWhile fun c => isDigitChar c || c == ','))
      else findDollarAmount rest
    | [] => none
  | _ :: rest => findDollarAmount rest

/-- `extract_price` from import_from_original.py: label, amount, confidence. -/
def extract_price (lines : List String) : String × Nat × String :=
  match lines with
  | [] => ("Price not listed", 0, "estimated")
  | _ :: tailLines =>
    let priceLines :=
      let scanned := tailLines.filter hasPriceCue
      if scanned = [] ∧ tailLines ≠ [] then [tailLines.headD ""] else scanned
    if priceLines = [] then ("Price not listed", 0, "estimated")
    else
      let label := String.intercalate " | " (priceLines.take 2)
      let amount := (findDollarAmount label.data).getD 0
      (label, amount, "from-original-tooltip")

/-! ## The import run's ids (import_from_original.py lines 315-360, 563-568, 606-621)

`build_cert` draws each imported record's id from
`unique_id(slugify(record["content"]), used_ids)`; `build_extra_ai_certs` then
draws each hand-authored record's id from `unique_id(cert["id"], used_ids)` with
the same set, and `main` writes every record to `f"{cert['id']}.yaml"`. -/

/-- The hand-authored extra records' base ids, in source order. -/
def extraBaseIds : List String :=
  ["comptia-secai-plus", "isaca-aaia", "isaca-aaism", "isaca-aair",
   "iapp-aigp", "giac-goaa", "pecb-iso-42001-lead-auditor"]

/-- Thread `unique_id` over a list of base slugs, returning the chosen ids and
the final used-id set. -/
def assignIds : List String → List String → List String × List String
  | [], used => ([], used)
  | base :: bases, used =>
    let r := unique_id base used
    let rest := assignIds bases r.2
    (r.1 :: rest.1, rest.2)

/-- All ids of one import run: raw records first (via `slugify` of their
`content`), then the extra records, both phases drawing from the one shared
used-id set that starts empty. -/
def importRunIds (contents : List String) : List String :=
  let imported := assignIds (contents.map slugify) []
  let extras := assignIds extraBaseIds imported.2
  imported.1 ++ extras.1

/-- `pathlib.Path(name).stem`: the filename with its final `.suffix` removed;
a name with no dot, or whose only dot leads it, is its own stem. -/
def fileStem (name : String) : String :=
  match name.data.reverse.dropWhile (· ≠ '.') with
  | [] => name
  | _ :: rest => if rest = [] then name else ⟨rest.reverse⟩

/-! ## The validator's value model (validate_catalog.py)

`yaml.safe_load` hands the validator arbitrary YAML values; `PyVal` embeds the
values the loader produces (scalars, sequences, mappings).  Mappings are
association lists with distinct keys, read through `pyGet`. -/

inductive PyVal where
  | VNone : PyVal
  | VBool : Bool → PyVal
  | VInt : Int → PyVal
  | VStr : String → PyVal
  | VList : List PyVal → PyVal
  | VDict : List (String × PyVal) → PyVal

open PyVal

/-- `payload.get(key)`: first binding of `key` (the dict's keys are distinct). -/
def pyGet (d : List (String × PyVal)) (key : String) : Option PyVal :=
  match d with
  | [] => none
  | (k, v) :: rest => if k = key then some v else pyGet rest key

/-- Decimal representation of an integer, as Python's `str`/f-strings render it. -/
def intRepr (n : Int) : String :=
  if n < 0 then "-" ++ ⟨natDigits n.natAbs⟩ else ⟨natDigits n.natAbs⟩

/-- The single-quote character (written by code point to keep it out of
character-literal position). -/
def squote : Char := Char.ofNat 39

/-- Lowercase hexadecimal digit. -/
def hexDigit (n : Nat) : Char :=
  if n < 10 then Char.ofNat (48 + n) else Char.ofNat (87 + n)

/-- The quote Python `repr` picks for a string: single quotes, unless the
string contains a single quote but no double quote. -/
def reprQuote (s : String) : Char :=
  if s.data.contains squote && !s.data.contains '"' then '"' else squote

/-- How Python `repr` renders one character of a string quoted with `q`:
backslash and the quote are escaped, newline/carriage-return/tab become
`\n`/`\r`/`\t`, other control characters become `\xXX`. -/
def reprEscChar (q : Char) (c : Char) : List Char :=
  if c = '\\' then ['\\', '\\']
  else if c = q then ['\\', q]
  else if c = '\n' then ['\\', 'n']
  else if c = '\r' then ['\\', 'r']
  else if c = '\t' then ['\\', 't']
  else if c.toNat < 32 ∨ c.toNat = 127 then
    ['\\', 'x', hexDigit (c.toNat / 16), hexDigit (c.toNat % 16)]
  else [c]

/-- Python `repr` of a string. -/
def strRepr (s : String) : String :=
  let q := reprQuote s
  ⟨q :: (s.data.map (reprEscChar q)).flatten ++ [q]⟩

mutual

/-- Python `repr` of a loaded value (strings quoted with escapes, containers
element-wise). -/
def pyRepr : PyVal → String
  | VNone => "None"
  | VBool true => "True"
  | VBool false => "False"
  | VInt n => intRepr n
  | VStr s => strRepr s
  | VList xs => "[" ++ String.intercalate ", " (pyReprList xs) ++ "]"
  | VDict d => "\x7b" ++ String.intercalate ", " (pyReprDict d) ++ "\x7d"

/-- `repr` of a list's elements. -/
def pyReprList : List PyVal → List String
  | [] => []
  | v :: vs => pyRepr v :: pyReprList vs

/-- `repr` of a dict's entries. -/
def pyReprDict : List (String × PyVal) → List String
  | [] => []
  | (k, v) :: rest => (strRepr k ++ ": " ++ pyRepr v) :: pyReprDict rest

end

/-- Python `str` of a loaded value (identity on strings, `repr` elsewhere;
the scalar cases are spelled out so that they compute by unfolding). -/
def pyStr : PyVal → String
  | VStr s => s
  | VNone => "None"
  | VBool true => "True"
  | VBool false => "False"
  | VInt n => intRepr n
  | v => pyRepr v

/-- How an f-string renders `payload.get(key)`: the value via `str`, or `None`. -/
def pyStrOpt : Option PyVal → String
  | Option.none => "None"
  | some v => pyStr v

/-- Value of a run of decimal digits (other characters ignored by the caller). -/
def digitsToNat (l : List Char) : Nat :=
  (l.filter isDigitChar).foldl (fun acc c => acc * 10 + digitVal c) 0

/-- Digits possibly separated by single underscores (what may follow the first
digit of a Python integer literal accepted by `int(str)`). -/
def underscoreDigits : List Char → Bool
  | [] => true
  | '_' :: [] => false
  | '_' :: d :: rest => isDigitChar d && underscoreDigits rest
  | d :: rest => isDigitChar d && underscoreDigits rest

/-- A non-empty digit run with optional single underscores between digits. -/
def digitsBody (l : List Char) : Bool :=
  match l with
  | [] => false
  | c :: rest => isDigitChar c && underscoreDigits rest

/-- Python `int(s)` on a string: optional surrounding whitespace, optional
sign, decimal digits (single underscores allowed between digits). -/
def pyIntOfString (s : String) : Option Int :=
  let t := pyStripChars s.data
  match t with
  | '+' :: r => if digitsBody r then some (digitsToNat r : Int) else none
  | '-' :: r => if digitsBody r then some (-(digitsToNat r : Int)) else none
  | _ => if digitsBody t then some (digitsToNat t : Int) else none

/-- Python `int(value)`: exact on ints and bools (a bool is an int in Python),
string parsing as `int(str)`; `None`, lists and dicts raise (`none` here). -/
def pyToInt : PyVal → Option Int
  | VInt n => some n
  | VBool b => some (if b then 1 else 0)
  | VStr s => pyIntOfString s
  | _ => none

/-- `isinstance(v, int)` — true for ints and bools (Python's `bool` subclasses `int`). -/
def isPyInt : PyVal → Bool
  | VInt _ => true
  | VBool _ => true
  | _ => false

/-- `v in S` for a Python set `S` of strings: only an equal string matches. -/
def valInStrSet (v : PyVal) (s : List String) : Bool :=
  match v with
  | VStr x => s.contains x
  | _ => false

/-- Same test on `payload.get(key)` (a missing key, i.e. `None`, never matches). -/
def optInStrSet (v : Option PyVal) (s : List String) : Bool :=
  match v with
  | some x => valInStrSet x s
  | Option.none => false

/-! ## The validator's constants (validate_catalog.py lines 16-103) -/

def VALID_LEVELS : List String := ["foundational", "intermediate", "advanced", "expert"]

def VALID_STATUS : List String := ["active", "beta", "retired"]

def VALID_PRICE_CONFIDENCE : List String := ["from-original-tooltip", "estimated"]

def VALID_DOMAINS : List String :=
  ["Communication and Network Security", "IAM",
   "Security Architecture and Engineering", "Asset Security",
   "Security and Risk Management", "Security Assessment and Testing",
   "Software Security", "Security Operations"]

def VALID_SUB_AREAS : List String :=
  ["Cloud/SysOps", "*nix", "ICS/IoT", "GRC", "Forensics", "Incident Handling",
   "Penetration Testing", "Exploitation"]

def VALID_ROLE_GROUPS : List String :=
  ["Network", "Asset", "Engineer", "Management", "Testing", "Software",
   "Blue Team Ops", "Red Team Ops", "IAM"]

/-- `DOMAIN_SUBAREA_MAP` as a total function: listed keys to their allowed
sub-areas, anything else (the `dict.get(domain, set())` default) to none. -/
def domainSubareaMap (domain : String) : List String :=
  if domain = "Security Architecture and Engineering" then ["Cloud/SysOps", "*nix", "ICS/IoT"]
  else if domain = "Security and Risk Management" then ["GRC"]
  else if domain = "Security Operations" then
    ["Forensics", "Incident Handling", "Penetration Testing", "Exploitation"]
  else []

def UNKNOWN_PRICE_LABEL_HINTS : List String :=
  ["not listed", "unknown", "tbd", "see provider", "n/a", "varies"]

/-- `REQUIRED_KEYS`, in the source's literal order (a Python set: used only
through membership and a sorted difference). -/
def REQUIRED_KEYS : List String :=
  ["id", "name", "provider", "cert_code", "url", "domain_area", "sub_areas",
   "tracks", "level", "status", "ai_focus", "introduced_year", "last_updated",
   "delivery", "renewal", "language", "role_groups", "roles", "tags",
   "prerequisites", "description", "summary", "price_usd", "price_label",
   "price_confidence", "tooltip_legacy"]

/-- Lexicographic order on code-point lists: exactly Python's string `<=`. -/
def lexLe : List Char → List Char → Bool
  | [], _ => true
  | _ :: _, [] => false
  | a :: as, b :: bs =>
    if a.toNat < b.toNat then true
    else if a.toNat = b.toNat then lexLe as bs
    else false

/-- Python string comparison `a <= b` (by code points). -/
def pyStrLe (a b : String) : Bool :=
  lexLe a.data b.data

/-- Python `sorted` on strings (code-point lexicographic). -/
def sortStrings (l : List String) : List String :=
  l.insertionSort (fun a b => pyStrLe a b = true)

/-! ## The validator's per-record checks (validate_catalog.py lines 106-268) -/

/-- Quote a value into an error message, as the source's f-strings do. -/
def qt (s : String) : String := "'" ++ s ++ "'"

/-- A value Python can hash: scalars are hashable, lists and dicts are not.
Testing an unhashable value for membership in a set raises `TypeError`. -/
def pyHashable : PyVal → Bool
  | VList _ => false
  | VDict _ => false
  | _ => true

/-- The field's value is present and unhashable, so `value in SET` raises. -/
def valueUnhashable : Option PyVal → Bool
  | some v => !pyHashable v
  | _ => false

/-- The field is a list holding an unhashable element, so iterating its
elements through a set-membership test raises. -/
def elemsUnhashable : Option PyVal → Bool
  | some (VList xs) => xs.any (fun x => !pyHashable x)
  | _ => false

/-- A `payload.get(key) not in SET` check (lines 138, 178, 181): a missing key
tests `None` (always an error), a scalar is tested, an unhashable value raises
before any message is emitted. -/
def scalarSetCheck (dval : Option PyVal) (sset : List String) (msg : String) :
    List String × Bool :=
  match dval with
  | some v =>
    if pyHashable v then (if valInStrSet v sset then [] else [msg], false)
    else ([], true)
  | Option.none => ([msg], false)

/-- A `for x in values: if x not in SET: fail(...)` loop (lines 145-147 and
174-176), stopping with a raise at the first unhashable element (the errors
emitted before it are kept). -/
def setMembershipScan (sset : List String) (mkMsg : PyVal → String) :
    List PyVal → List String × Bool
  | [] => ([], false)
  | v :: rest =>
    if pyHashable v then
      let e := if valInStrSet v sset then [] else [mkMsg v]
      let r := setMembershipScan sset mkMsg rest
      (e ++ r.1, r.2)
    else ([], true)

/-- Lines 149-150: `DOMAIN_SUBAREA_MAP.get(domain, set())`; `domainVal` is
`payload.get("domain_area")`, and a missing or non-string domain yields the
empty set.  (When this runs, the domain value is hashable: an unhashable one
already raised at line 138.) -/
def allowedSubAreasFor (domainVal : Option PyVal) : List String :=
  match domainVal with
  | some (VStr s) => domainSubareaMap s
  | _ => []

/-- Lines 151-168: the compatibility loop and the empty-set branch.  (When this
runs, every element is hashable: an unhashable one already raised at line 146.) -/
def domainCompatErrors (name : String) (domainVal : Option PyVal)
    (subs : List PyVal) : List String :=
  let allowed := allowedSubAreasFor domainVal
  if allowed ≠ [] then
    subs.filterMap fun s =>
      if valInStrSet s allowed then Option.none
      else some (name ++ ": sub_area " ++ qt (pyStr s) ++
        " is incompatible with domain_area " ++ qt (pyStrOpt domainVal))
  else if subs.isEmpty then []
  else
    [name ++ ": domain_area " ++ qt (pyStrOpt domainVal) ++
      " does not define sub-areas, so sub_areas must be empty"]

/-- Lines 141-168: the whole `sub_areas` section, with its raise flag. -/
def subAreasSectionChecked (name : String) (d : List (String × PyVal)) :
    List String × Bool :=
  match pyGet d "sub_areas" with
  | some (VList subs) =>
    let r := setMembershipScan VALID_SUB_AREAS
      (fun v => name ++ ": invalid sub_area " ++ qt (pyStr v)) subs
    if r.2 then (r.1, true)
    else (r.1 ++ domainCompatErrors name (pyGet d "domain_area") subs, false)
  | _ => ([name ++ ": sub_areas must be a list"], false)

/-- Lines 170-176: the `role_groups` section; the membership loop of lines
174-176 raises at the first unhashable element. -/
def roleGroupsChecked (name : String) (d : List (String × PyVal)) :
    List String × Bool :=
  match pyGet d "role_groups" with
  | some (VList (g :: gs)) =>
    setMembershipScan VALID_ROLE_GROUPS
      (fun v => name ++ ": invalid role_group " ++ qt (pyStr v)) (g :: gs)
  | _ => ([name ++ ": role_groups must be a non-empty list"], false)

/-- `re.search(r"\d", label)` succeeds. -/
def labelHasDigit (label : String) : Bool :=
  label.data.any isDigitChar

/-- Lines 248-268: the price-coherence rules, applied to the converted
`price_usd` (line 247) and the stripped `price_label` (line 199). -/
def priceCoherenceErrors (name : String) (priceUsd : Int) (priceLabel : String) :
    List String :=
  let low := pyLower priceLabel
  let numberOrDollar := labelHasDigit priceLabel || '$' ∈ priceLabel.data
  (if priceUsd = 0 ∧ numberOrDollar = true ∧
      ¬ (UNKNOWN_PRICE_LABEL_HINTS.any fun marker => strContains low marker) = true ∧
      ¬ strContains low "free" = true then
    [name ++ ": price_usd is 0 but price_label looks numeric; " ++
      "set a numeric price_usd or use an unknown/free label"]
  else []) ++
  (if priceUsd > 0 ∧ ¬ labelHasDigit priceLabel = true then
    [name ++ ": price_usd is > 0 but price_label has no numeric hint"]
  else []) ++
  (if strContains low "free" = true ∧ priceUsd ≠ 0 then
    [name ++ ": price_label says free but price_usd is not 0"]
  else [])

/-- Leap year per the Gregorian rule `date.fromisoformat` applies. -/
def isLeapYear (y : Nat) : Bool :=
  (y % 4 == 0 && y % 100 != 0) || y % 400 == 0

/-- Days of month `m` in year `y`. -/
def daysInMonth (y m : Nat) : Nat :=
  if m = 2 then (if isLeapYear y then 29 else 28)
  else if m = 4 ∨ m = 6 ∨ m = 9 ∨ m = 11 then 30
  else 31

/-- `date.fromisoformat` acceptance of a `YYYY-MM-DD` string's fields. -/
def validCalendarDate (y m d : Nat) : Bool :=
  1 ≤ y && y ≤ 9999 && 1 ≤ m && m ≤ 12 && 1 ≤ d && d ≤ daysInMonth y m

/-- `^\d{4}-\d{2}-\d{2}$` (line 74), returning the three numeric fields. -/
def isoDateParts (l : List Char) : Option (Nat × Nat × Nat) :=
  match l with
  | [y1, y2, y3, y4, h1, m1, m2, h2, d1, d2] =>
    if h1 = '-' ∧ h2 = '-' ∧ [y1, y2, y3, y4, m1, m2, d1, d2].all isDigitChar then
      some (digitsToNat [y1, y2, y3, y4], digitsToNat [m1, m2], digitsToNat [d1, d2])
    else Option.none
  | _ => Option.none

/-- Lines 217-224: the `last_updated` section. -/
def lastUpdatedErrors (name : String) (lastUpdated : String) : List String :=
  match isoDateParts lastUpdated.data with
  | Option.none => [name ++ ": last_updated must use YYYY-MM-DD"]
  | some (y, m, d) =>
    if validCalendarDate y m d then []
    else [name ++ ": last_updated is not a valid calendar date"]

/-- Lines 230-245: the `tooltip_legacy` section. -/
def tooltipErrors (name tooltipLegacy nmField certCode descText : String) : List String :=
  if tooltipLegacy = "" then [name ++ ": tooltip_legacy must not be empty"]
  else
    let low := pyLower tooltipLegacy
    let nameMatch := nmField ≠ "" ∧ strContains low (pyLower nmField) = true
    let codeMatch := certCode ≠ "" ∧ strContains low (pyLower certCode) = true
    let descMatch := descText ≠ "" ∧ strContains low (pyLower descText) = true
    if ¬ nameMatch ∧ ¬ codeMatch ∧ ¬ descMatch then
      [name ++ ": tooltip_legacy should contain name, cert_code, or description"]
    else []

/-- Lines 184-268 with no raise potential before line 247, plus the
price-coherence block: the checks of one record after the two membership loops,
as one error list. -/
def tailChecks (name : String) (d : List (String × PyVal)) : List String :=
  let e9 := match pyGet d "ai_focus" with
    | some (VBool _) => []
    | _ => [name ++ ": ai_focus must be boolean"]
  let e10 := match pyGet d "introduced_year" with
    | some v => if isPyInt v then [] else [name ++ ": introduced_year must be integer"]
    | Option.none => [name ++ ": introduced_year must be integer"]
  let e11 := match pyGet d "price_usd" with
    | some v =>
      if isPyInt v then
        (if (pyToInt v).getD 0 < 0 then [name ++ ": price_usd must be >= 0"] else [])
      else [name ++ ": price_usd must be integer"]
    | Option.none => [name ++ ": price_usd must be integer"]
  let description := pyStrip (pyStr ((pyGet d "description").getD (VStr "")))
  let e12 := if description = "" then [name ++ ": description must not be empty"] else []
  let priceLabel := pyStrip (pyStr ((pyGet d "price_label").getD (VStr "")))
  let e13 := if priceLabel = "" then [name ++ ": price_label must not be empty"] else []
  let priceConfidence := pyStr ((pyGet d "price_confidence").getD (VStr ""))
  let e14 := if ¬ VALID_PRICE_CONFIDENCE.contains priceConfidence = true then
    [name ++ ": price_confidence " ++ qt priceConfidence ++ " must be one of " ++
      String.intercalate ", " (sortStrings VALID_PRICE_CONFIDENCE)] else []
  let url := pyStrip (pyStr ((pyGet d "url").getD (VStr "")))
  let e15 := if ¬ ("http://".data.isPrefixOf url.data || "https://".data.isPrefixOf url.data) = true then
    [name ++ ": url must start with http:// or https://"] else []
  let lastUpdated := pyStrip (pyStr ((pyGet d "last_updated").getD (VStr "")))
  let e16 := lastUpdatedErrors name lastUpdated
  let summary := pyStrip (pyStr ((pyGet d "summary").getD (VStr "")))
  let e17 := if summary = "" then [name ++ ": summary must not be empty"] else []
  let tooltipLegacy := pyStrip (pyStr ((pyGet d "tooltip_legacy").getD (VStr "")))
  let nmField := pyStrip (pyStr ((pyGet d "name").getD (VStr "")))
  let certCode := pyStrip (pyStr ((pyGet d "cert_code").getD (VStr "")))
  let e18 := tooltipErrors name tooltipLegacy nmField certCode description
  e9 ++ e10 ++ e11 ++ e12 ++ e13 ++ e14 ++ e15 ++ e16 ++ e17 ++ e18

/-- Lines 138-268 for one record payload: the messages accumulated in source
order, stopping with the raise flag at the first statement that raises — a
set-membership test on an unhashable value (lines 138, 146, 175, 178, 181) or
line 247's `int(payload.get("price_usd", 0))` on an inconvertible value. -/
def recordChecks (name : String) (d : List (String × PyVal)) : List String × Bool :=
  let dom := scalarSetCheck (pyGet d "domain_area") VALID_DOMAINS
    (name ++ ": invalid domain_area " ++ qt (pyStrOpt (pyGet d "domain_area")))
  if dom.2 then (dom.1, true) else
  let sub := subAreasSectionChecked name d
  if sub.2 then (dom.1 ++ sub.1, true) else
  let rg := roleGroupsChecked name d
  if rg.2 then (dom.1 ++ sub.1 ++ rg.1, true) else
  let lvl := scalarSetCheck (pyGet d "level") VALID_LEVELS
    (name ++ ": invalid level " ++ qt (pyStrOpt (pyGet d "level")))
  if lvl.2 then (dom.1 ++ sub.1 ++ rg.1 ++ lvl.1, true) else
  let st := scalarSetCheck (pyGet d "status") VALID_STATUS
    (name ++ ": invalid status " ++ qt (pyStrOpt (pyGet d "status")))
  if st.2 then (dom.1 ++ sub.1 ++ rg.1 ++ lvl.1 ++ st.1, true) else
  let mid := dom.1 ++ sub.1 ++ rg.1 ++ lvl.1 ++ st.1 ++ tailChecks name d
  match pyToInt ((pyGet d "price_usd").getD (VInt 0)) with
  | Option.none => (mid, true)
  | some priceUsd =>
    (mid ++ priceCoherenceErrors name priceUsd
      (pyStrip (pyStr ((pyGet d "price_label").getD (VStr "")))), false)

/-- The raise condition of `recordChecks`, independent of the filename: some
set-membership test meets an unhashable value, or line 247's `int()` fails. -/
def recordRaises (d : List (String × PyVal)) : Bool :=
  valueUnhashable (pyGet d "domain_area") || elemsUnhashable (pyGet d "sub_areas") ||
    elemsUnhashable (pyGet d "role_groups") || valueUnhashable (pyGet d "level") ||
    valueUnhashable (pyGet d "status") ||
    (pyToInt ((pyGet d "price_usd").getD (VInt 0))).isNone

/-- The body of the validator's `for path in files` loop for one file: the
error messages the file adds (in source order, up to a raise), the updated
seen-id set, and whether the body raised — which aborts the whole run. -/
def processFile (name : String) (payload : PyVal) (seen : List String) :
    List String × List String × Bool :=
  match payload with
  | VDict d =>
    let missing := sortStrings (REQUIRED_KEYS.filter fun k => ¬ (d.map Prod.fst).contains k = true)
    let e1 := if missing ≠ [] then
      [name ++ ": missing keys " ++ String.intercalate ", " missing] else []
    let fileId := fileStem name
    let certId := pyStr ((pyGet d "id").getD (VStr ""))
    let e2 := if certId ≠ fileId then
      [name ++ ": id " ++ qt certId ++ " must match filename " ++ qt fileId] else []
    let e3 := if seen.contains certId then [name ++ ": duplicate id " ++ qt certId] else []
    let r := recordChecks name d
    (e1 ++ e2 ++ e3 ++ r.1, certId :: seen, r.2)
  | _ => ([name ++ ": must contain a YAML object"], seen, false)

/-- The validator's scan over the (sorted) file list: accumulated error
messages, and whether the run aborted with an uncaught exception. -/
def runScan : List (String × PyVal) → List String → List String → List String × Bool
  | [], _, errors => (errors, false)
  | (name, v) :: rest, seen, errors =>
    let r := processFile name v seen
    if r.2.2 then (errors ++ r.1, true)
    else runScan rest r.2.1 (errors ++ r.1)

/-- `main` of validate_catalog.py over the decoded files: the error list, and
`some` exit code (1 when any violation accumulated, else 0) when the run
finishes, `none` when a record's processing raised and aborted it. -/
def validatorMain (files : List (String × PyVal)) : List String × Option Int :=
  let fs := files.insertionSort (fun a b => pyStrLe a.1 b.1 = true)
  let e0 := if fs.isEmpty then ["No YAML files found in data/certifications"] else []
  let r := runScan fs [] e0
  if r.2 then (r.1, Option.none)
  else (r.1, some (if r.1 ≠ [] then 1 else 0))

/-! ## The index rebuilder (rebuild_index.py lines 16-84)

Each record file contributes its filename, its `domain_area` value (read with
default `"Security Operations"`) and its `sub_areas` value (read with default
`[]`, and `or []` turns a null into `[]`).  The two Python accumulator sets are
embedded as duplicate-free lists used through membership and a final `sorted`. -/

/-- One canonical record file as the rebuilder reads it. -/
structure CertFile where
  fileName : String
  domainArea : Option String
  subAreas : Option (List String)
  deriving DecidableEq

/-- `payload.get("domain_area", "Security Operations")`. -/
def domainOf (r : CertFile) : String :=
  r.domainArea.getD "Security Operations"

/-- `payload.get("sub_areas", []) or []`. -/
def subsOf (r : CertFile) : List String :=
  r.subAreas.getD []

/-- `DOMAIN_ORDER` (rebuild_index.py lines 16-25). -/
def DOMAIN_ORDER : List String :=
  ["Communication and Network Security", "IAM",
   "Security Architecture and Engineering", "Asset Security",
   "Security and Risk Management", "Security Assessment and Testing",
   "Software Security", "Security Operations"]

/-- `SUBAREA_ORDER` (rebuild_index.py lines 27-36). -/
def SUBAREA_ORDER : List String :=
  ["Cloud/SysOps", "*nix", "ICS/IoT", "GRC", "Forensics", "Incident Handling",
   "Penetration Testing", "Exploitation"]

/-- `set.add`: a list serving as a set, keeping the first occurrence only. -/
def setAdd (l : List String) (x : String) : List String :=
  if x ∈ l then l else l ++ [x]

/-- The `domains` set after the rebuilder's read loop. -/
def collectedDomains (recs : List CertFile) : List String :=
  recs.foldl (fun acc r => setAdd acc (domainOf r)) []

/-- The `sub_areas` set after the rebuilder's read loop. -/
def collectedSubAreas (recs : List CertFile) : List String :=
  recs.foldl (fun acc r => (subsOf r).foldl setAdd acc) []

/-- `ordered_domains` (line 51): canonical order restricted to the domains in
use, then `sorted(domains - set(DOMAIN_ORDER))`. -/
def orderedDomains (recs : List CertFile) : List String :=
  DOMAIN_ORDER.filter (fun d => d ∈ collectedDomains recs) ++
    sortStrings ((collectedDomains recs).filter (fun d => d ∉ DOMAIN_ORDER))

/-- `ordered_sub_areas` (lines 52-54). -/
def orderedSubAreas (recs : List CertFile) : List String :=
  SUBAREA_ORDER.filter (fun s => s ∈ collectedSubAreas recs) ++
    sortStrings ((collectedSubAreas recs).filter (fun s => s ∉ SUBAREA_ORDER))

/-- `files = sorted(path.name for path in CERTS_DIR.glob("*.yaml"))` (line 40):
the index's `certifications` list. -/
def rebuiltCertifications (recs : List CertFile) : List String :=
  sortStrings (recs.map CertFile.fileName)

/-! ## Claim-side definitions

Definitions used to state the claims: the markers and validity notions the
spec's sentences name, and the claim-worded variant of provider inference. -/

/-- The unknown/free markers exactly as the claim lists them: the six
`UNKNOWN_PRICE_LABEL_HINTS` plus `"free"`.  (The source checks the six hints
and `"free"` separately; the claim folds them into one seven-element set.) -/
def claimUnknownFreeMarkers : List String :=
  ["not listed", "unknown", "tbd", "see provider", "n/a", "varies", "free"]

/-- The record file's payload is a mapping with no `id` key. -/
def lacksId (f : String × PyVal) : Bool :=
  match f.2 with
  | VDict d => (pyGet d "id").isNone
  | _ => false

/-- Processing this file raises an uncaught exception — a membership test on
an unhashable value at line 138, 146, 175, 178 or 181, or line 247's `int()`
on an inconvertible `price_usd` value — aborting the run. -/
def fileCrashes (f : String × PyVal) : Bool :=
  match f.2 with
  | VDict d => recordRaises d
  | _ => false

/-- The message line 135 emits for a duplicate of the empty id. -/
def dupEmptyIdMsg (nm : String) : String :=
  nm ++ ": duplicate id " ++ qt ""

/-- Reading a decimal digit list back as a number (proof device for
injectivity of the rendering). -/
def decVal (l : List Char) : Nat :=
  l.foldl (fun a c => a * 10 + (c.toNat - 48)) 0

/-- The list is empty or starts with a slug character. -/
def headSlug : List Char → Prop
  | [] => True
  | c :: _ => isSlugChar c = true

/-- No two adjacent hyphens. -/
def noDoubleDash : List Char → Bool
  | [] => true
  | [_] => true
  | a :: b :: t => !(a == '-' && b == '-') && noDoubleDash (b :: t)

/-- Valid continuation of a slug: slug characters, every hyphen followed by a
slug character (so no trailing hyphen and no hyphen runs). -/
def STailB : List Char → Bool
  | [] => true
  | [c] => isSlugChar c
  | c :: d :: t =>
    if isSlugChar c then STailB (d :: t)
    else (c == '-') && isSlugChar d && STailB t

/-- The host as the claim's words describe it: lowercase the parsed host, then
strip a literal `www.` prefix (once, at the front only). -/
def claimedHostOfUrl (url : String) : String :=
  let h := pyLower (netlocOf url)
  if "www.".data.isPrefixOf h.data then ⟨h.data.drop 4⟩ else h

/-- The claim's table lookup: the first entry whose key the host equals or ends
with a dot followed by the key. -/
def providerByTable (host : String) : Option String :=
  (HOST_PROVIDER_MAP.find? fun kv =>
    host == kv.1 || ("." ++ kv.1).data.isSuffixOf host.data).map Prod.snd

/-- The claim's fallback: the title-cased second-level label of the host with
hyphens replaced by spaces; an empty label yields the sentinel `"Unknown"`. -/
def providerFallback (host : String) : String :=
  if secondLevelLabel host.data ≠ [] then titleOfLabel (secondLevelLabel host.data)
  else "Unknown"

/-- Provider inference exactly as the claim words it (prefix-only `www.` strip). -/
def parse_provider_claimed (url : String) : String :=
  match providerByTable (claimedHostOfUrl url) with
  | some p => p
  | none => providerFallback (claimedHostOfUrl url)

/-- Provider inference as the claim words it once the `www.` handling is
amended to "remove every occurrence" (the code's `str.replace` semantics). -/
def parse_provider_described (url : String) : String :=
  match providerByTable (hostOfUrl url) with
  | some p => p
  | none => providerFallback (hostOfUrl url)

/-! ## Helper lemmas -/

theorem string_ext_data {a b : String} (h : a.data = b.data) : a = b := by
  cases a; cases b; exact congrArg String.mk h

theorem contains_iff_mem {l : List String} {x : String} :
    l.contains x = true ↔ x ∈ l := by
  induction l with
  | nil => simp [List.contains]
  | cons a t ih => simp [List.contains] at ih ⊢

/-! ## C9: tooltip parsing of the spec's example -/

/-- C9.  For the raw tooltip text `"CompTIA Security+\\n$370 exam voucher"`,
`normalize_lines` produces `["CompTIA Security+", "$370 exam voucher"]`, the
description (first non-blank line) is `"CompTIA Security+"`, and
`extract_price` yields a label containing (here: equal to)
`"$370 exam voucher"`, numeric price `370` and confidence
`"from-original-tooltip"`. -/
theorem tooltip_example_parse :
    normalize_lines "CompTIA Security+\\n$370 exam voucher" =
      ["CompTIA Security+", "$370 exam voucher"] ∧
    (normalize_lines "CompTIA Security+\\n$370 exam voucher").headD "" =
      "CompTIA Security+" ∧
    extract_price (normalize_lines "CompTIA Security+\\n$370 exam voucher") =
      ("$370 exam voucher", 370, "from-original-tooltip") ∧
    strContains (extract_price (normalize_lines
      "CompTIA Security+\\n$370 exam voucher")).1 "$370 exam voucher" = true := by
  refine ⟨by decide, by decide, by decide, by decide⟩

/-! ## C4: the validator can abort instead of accumulating -/

/-- C4 (refuting evaluation).  The claim says the validator's `main` always
runs to completion, accumulating every violation, and in particular must not
abort on a record whose `price_usd` is of non-integer type.  The code violates
this: on a catalog whose one record carries `price_usd: "n/a"`, line 247's
`int(payload.get("price_usd", 0))` raises and the run aborts (`none` here),
although line 190 had already recorded the type violation gracefully.  A
catalog with the same record but no `price_usd` key completes and returns 1. -/
theorem validator_aborts_on_nonint_price :
    (validatorMain [("a.yaml", VDict [("price_usd", VStr "n/a")])]).2 = Option.none ∧
    (validatorMain [("a.yaml", VDict [("id", VStr "a")])]).2 = some 1 := by
  refine ⟨by decide, by decide⟩

/-! ## C1: the price-coherence rules -/

theorem claim_markers_split (label : String) :
    (claimUnknownFreeMarkers.any fun m => strContains (pyLower label) m) =
      ((UNKNOWN_PRICE_LABEL_HINTS.any fun m => strContains (pyLower label) m) ||
        strContains (pyLower label) "free") := by
  simp [claimUnknownFreeMarkers, UNKNOWN_PRICE_LABEL_HINTS, Bool.or_assoc]

/-- C1.  The price-coherence check of lines 247-268 flags a record exactly when
the spec's three rules say so: `price_usd = 0` with a digit or `$` in the label
but none of the seven unknown/free markers (case-insensitively); `price_usd > 0`
with no digit in the label; `"free"` in the label with `price_usd ≠ 0` — and
never otherwise.  In particular `price_usd = 0` with label `"$499 exam"` is
flagged and `price_usd = 0` with label `"Price not listed"` is not. -/
theorem price_coherence_rules :
    (∀ (nm : String) (usd : Int) (label : String),
      priceCoherenceErrors nm usd label ≠ [] ↔
        ((usd = 0 ∧ (labelHasDigit label || '$' ∈ label.data) = true ∧
            (claimUnknownFreeMarkers.any fun m => strContains (pyLower label) m) = false) ∨
         (usd > 0 ∧ labelHasDigit label = false) ∨
         (strContains (pyLower label) "free" = true ∧ usd ≠ 0))) ∧
    priceCoherenceErrors "x.yaml" 0 "$499 exam" ≠ [] ∧
    priceCoherenceErrors "x.yaml" 0 "Price not listed" = [] := by
  refine ⟨fun nm usd label => ?_, by decide, by decide⟩
  have hm := claim_markers_split label
  simp only [priceCoherenceErrors]
  split_ifs with h1 h2 h3 <;>
    simp_all [Bool.or_eq_true, Bool.not_eq_true, not_or]

/-! ## C2: the sub-area/domain compatibility rule -/

theorem scalarSetCheck_flag (dval : Option PyVal) (sset : List String) (msg : String) :
    (scalarSetCheck dval sset msg).2 = valueUnhashable dval := by
  cases dval with
  | none => rfl
  | some v => by_cases h : pyHashable v = true <;> simp [scalarSetCheck, valueUnhashable, h]

theorem setMembershipScan_flag (sset : List String) (mkMsg : PyVal → String)
    (l : List PyVal) :
    (setMembershipScan sset mkMsg l).2 = l.any (fun x => !pyHashable x) := by
  induction l with
  | nil => rfl
  | cons v rest ih =>
    by_cases h : pyHashable v = true <;> simp [setMembershipScan, h, ih]

theorem subAreasSectionChecked_flag (name : String) (d : List (String × PyVal)) :
    (subAreasSectionChecked name d).2 = elemsUnhashable (pyGet d "sub_areas") := by
  rcases hg : pyGet d "sub_areas" with _ | v
  · simp [subAreasSectionChecked, elemsUnhashable, hg]
  · cases v with
    | VList subs =>
      simp only [subAreasSectionChecked, hg, elemsUnhashable]
      rw [← setMembershipScan_flag VALID_SUB_AREAS
        (fun v => name ++ ": invalid sub_area " ++ qt (pyStr v)) subs]
      cases h : (setMembershipScan VALID_SUB_AREAS
          (fun v => name ++ ": invalid sub_area " ++ qt (pyStr v)) subs).2 <;> simp [h]
    | VNone => simp [subAreasSectionChecked, elemsUnhashable, hg]
    | VBool b => simp [subAreasSectionChecked, elemsUnhashable, hg]
    | VInt n => simp [subAreasSectionChecked, elemsUnhashable, hg]
    | VStr s => simp [subAreasSectionChecked, elemsUnhashable, hg]
    | VDict dd => simp [subAreasSectionChecked, elemsUnhashable, hg]

theorem roleGroupsChecked_flag (name : String) (d : List (String × PyVal)) :
    (roleGroupsChecked name d).2 = elemsUnhashable (pyGet d "role_groups") := by
  rcases hg : pyGet d "role_groups" with _ | v
  · simp [roleGroupsChecked, elemsUnhashable, hg]
  · cases v with
    | VList gs =>
      cases gs with
      | nil => simp [roleGroupsChecked, elemsUnhashable, hg]
      | cons g t => simp [roleGroupsChecked, elemsUnhashable, hg, setMembershipScan_flag]
    | VNone => simp [roleGroupsChecked, elemsUnhashable, hg]
    | VBool b => simp [roleGroupsChecked, elemsUnhashable, hg]
    | VInt n => simp [roleGroupsChecked, elemsUnhashable, hg]
    | VStr s => simp [roleGroupsChecked, elemsUnhashable, hg]
    | VDict dd => simp [roleGroupsChecked, elemsUnhashable, hg]

theorem recordChecks_flag (name : String) (d : List (String × PyVal)) :
    (recordChecks name d).2 = recordRaises d := by
  simp only [recordChecks, recordRaises, scalarSetCheck_flag,
    subAreasSectionChecked_flag, roleGroupsChecked_flag]
  cases h1 : valueUnhashable (pyGet d "domain_area") <;>
  cases h2 : elemsUnhashable (pyGet d "sub_areas") <;>
  cases h3 : elemsUnhashable (pyGet d "role_groups") <;>
  cases h4 : valueUnhashable (pyGet d "level") <;>
  cases h5 : valueUnhashable (pyGet d "status") <;>
  cases hpi : pyToInt ((pyGet d "price_usd").getD (VInt 0)) <;>
  simp [h1, h2, h3, h4, h5, hpi]

/-- C2 (counterexample to the claim as stated).  A record with `domain_area`
`"Security Operations"` and `sub_areas` `["Forensics", []]` contains the
sub-area value `[]`, which is outside the domain's allowed set, yet no
incompatibility violation is reported: the membership test of line 146 raises
`TypeError` on the unhashable list value, aborting the run before lines
151-168. -/
theorem subarea_domain_counterexample :
    (processFile "a.yaml" (VDict [("domain_area", VStr "Security Operations"),
        ("sub_areas", VList [VStr "Forensics", VList []])]) []).2.2 = true ∧
    (processFile "a.yaml" (VDict [("domain_area", VStr "Security Operations"),
        ("sub_areas", VList [VStr "Forensics", VList []])]) []).1.all
      (fun m => !(infixOf "is incompatible with".data m.data)) = true := by
  set_option maxRecDepth 4000 in exact ⟨by decide, by decide⟩

/-- C2 (amended).  For a record whose `sub_areas` field is a list: when the
domain's allowed set is non-empty, every listed sub-area outside it is flagged
with its own message; when the domain permits no sub-areas, the record is
flagged iff the list is non-empty; a record whose sub-areas all lie in the
allowed set is not flagged by this rule.  `IAM` with `Forensics` is flagged,
and — provided the `domain_area` value and every listed sub-area value are
hashable, so no membership test raises first — every message this rule
produces is among the messages the validator's per-file check emits. -/
theorem subarea_domain_rule :
    (∀ (nm : String) (domainVal : Option PyVal) (subs : List PyVal),
      (allowedSubAreasFor domainVal ≠ [] →
        ∀ v ∈ subs, valInStrSet v (allowedSubAreasFor domainVal) = false →
          (nm ++ ": sub_area " ++ qt (pyStr v) ++ " is incompatible with domain_area "
            ++ qt (pyStrOpt domainVal)) ∈ domainCompatErrors nm domainVal subs) ∧
      (allowedSubAreasFor domainVal = [] →
        (domainCompatErrors nm domainVal subs ≠ [] ↔ subs ≠ [])) ∧
      ((∀ v ∈ subs, valInStrSet v (allowedSubAreasFor domainVal) = true) →
        domainCompatErrors nm domainVal subs = [])) ∧
    domainCompatErrors "x.yaml" (some (VStr "IAM")) [VStr "Forensics"] ≠ [] ∧
    (∀ (nm : String) (d : List (String × PyVal)) (seen : List String) (subs : List PyVal),
      pyGet d "sub_areas" = some (VList subs) →
      valueUnhashable (pyGet d "domain_area") = false →
      (∀ v ∈ subs, pyHashable v = true) →
      ∀ m ∈ domainCompatErrors nm (pyGet d "domain_area") subs,
        m ∈ (processFile nm (VDict d) seen).1) := by
  refine ⟨fun nm domainVal subs => ⟨?_, ?_, ?_⟩, by decide, ?_⟩
  · intro hne v hv hout
    simp only [domainCompatErrors, if_pos hne]
    exact List.mem_filterMap.mpr ⟨v, hv, by simp [hout]⟩
  · intro hz
    simp only [domainCompatErrors, hz]
    cases subs <;> simp
  · intro hall
    by_cases hne : allowedSubAreasFor domainVal ≠ []
    · simp only [domainCompatErrors, if_pos hne]
      exact List.filterMap_eq_nil_iff.mpr fun v hv => by simp [hall v hv]
    · push_neg at hne
      cases subs with
      | nil => simp [domainCompatErrors, hne]
      | cons v t =>
        have := hall v (by simp)
        rw [hne] at this
        simp [valInStrSet] at this
        cases v <;> simp_all
  · intro nm d seen subs hget hdomh hsubh m hm
    have hscan : (setMembershipScan VALID_SUB_AREAS
        (fun v => nm ++ ": invalid sub_area " ++ qt (pyStr v)) subs).2 = false := by
      rw [setMembershipScan_flag]
      simp only [List.any_eq_false]
      intro v hv
      simp [hsubh v hv]
    have hsub : subAreasSectionChecked nm d =
        ((setMembershipScan VALID_SUB_AREAS
          (fun v => nm ++ ": invalid sub_area " ++ qt (pyStr v)) subs).1 ++
          domainCompatErrors nm (pyGet d "domain_area") subs, false) := by
      simp [subAreasSectionChecked, hget, hscan]
    have hmem : m ∈ (recordChecks nm d).1 := by
      simp only [recordChecks, scalarSetCheck_flag, hdomh, hsub]
      split_ifs <;> (try split) <;> simp_all [List.mem_append]
    simp only [processFile]
    simp [List.mem_append, hmem]

/-! ## C10: missing ids and the duplicate-id check -/

theorem processFile_seen_dict (nm : String) (d : List (String × PyVal))
    (seen : List String) :
    (processFile nm (VDict d) seen).2.1 =
      pyStr ((pyGet d "id").getD (VStr "")) :: seen := rfl

theorem processFile_seen_sup (nm : String) (v : PyVal) (seen : List String) :
    ∀ x ∈ seen, x ∈ (processFile nm v seen).2.1 := by
  intro x hx
  cases v with
  | VDict d => rw [processFile_seen_dict]; exact List.mem_cons_of_mem _ hx
  | VNone => exact hx
  | VBool b => exact hx
  | VInt n => exact hx
  | VStr s => exact hx
  | VList l => exact hx

theorem processFile_crash_eq (nm : String) (v : PyVal) (seen : List String) :
    (processFile nm v seen).2.2 = fileCrashes (nm, v) := by
  cases v with
  | VDict d => exact recordChecks_flag nm d
  | VNone => rfl
  | VBool b => rfl
  | VInt n => rfl
  | VStr s => rfl
  | VList l => rfl

theorem processFile_dup_mem (nm : String) (d : List (String × PyVal))
    (seen : List String) (hid : pyGet d "id" = Option.none) (hseen : "" ∈ seen) :
    dupEmptyIdMsg nm ∈ (processFile nm (VDict d) seen).1 := by
  have hcid : pyStr ((pyGet d "id").getD (VStr "")) = "" := by simp [hid, pyStr]
  have hcontains : seen.contains "" = true := contains_iff_mem.mpr hseen
  simp [processFile, hcid, hcontains, List.mem_append, dupEmptyIdMsg, hseen]

theorem runScan_mem_mono (files : List (String × PyVal)) :
    ∀ (seen errs : List String), ∀ m ∈ errs, m ∈ (runScan files seen errs).1 := by
  induction files with
  | nil => intro seen errs m hm; simpa [runScan] using hm
  | cons f rest ih =>
    intro seen errs m hm
    rcases f with ⟨nm, v⟩
    simp only [runScan]
    split
    · exact List.mem_append_left _ hm
    · exact ih _ _ m (List.mem_append_left _ hm)

theorem runScan_dup_of_seen (files : List (String × PyVal)) :
    ∀ (seen errs : List String) (j : Nat) (nmj : String) (dj : List (String × PyVal)),
    files.get? j = some (nmj, VDict dj) → pyGet dj "id" = Option.none → "" ∈ seen →
    (∀ l g, l < j → files.get? l = some g → fileCrashes g = false) →
    dupEmptyIdMsg nmj ∈ (runScan files seen errs).1 := by
  induction files with
  | nil => intro seen errs j nmj dj hj; simp at hj
  | cons f rest ih =>
    intro seen errs j nmj dj hj hid hseen hcrash
    rcases f with ⟨nm, v⟩
    match j, hj with
    | 0, hj =>
      have hf : nm = nmj ∧ v = VDict dj := by
        simpa using And.intro (congrArg (fun p => (Prod.fst <$> p).getD "") hj)
          (congrArg (fun p => (Prod.snd <$> p).getD VNone) hj)
      obtain ⟨rfl, rfl⟩ := hf
      have hmem := processFile_dup_mem nm dj seen hid hseen
      simp only [runScan]
      split
      · exact List.mem_append_right _ hmem
      · exact runScan_mem_mono _ _ _ _ (List.mem_append_right _ hmem)
    | Nat.succ l, hj =>
      have hc0 : fileCrashes (nm, v) = false :=
        hcrash 0 (nm, v) (Nat.succ_pos l) rfl
      simp only [runScan]
      rw [if_neg (by rw [processFile_crash_eq]; simp [hc0])]
      exact ih _ _ l nmj dj (by simpa using hj) hid
        (processFile_seen_sup nm v seen "" hseen)
        (fun l2 g hl2 hg => hcrash (l2 + 1) g (Nat.succ_lt_succ hl2) (by simpa using hg))

/-- C10 (amended).  The validator turns a missing `id` key into the empty
string, adds it to the seen-id set unconditionally, and therefore reports every
later id-less record the scan reaches as a duplicate of `''` — "reaches"
because a record whose `price_usd` conversion raises (C4) aborts the scan, so
id-less files after such a record are never reported. -/
theorem missing_id_duplicate_reporting :
    (∀ (nm : String) (d : List (String × PyVal)) (seen : List String),
      pyGet d "id" = Option.none →
      (processFile nm (VDict d) seen).2.1 = "" :: seen) ∧
    (∀ (files : List (String × PyVal)) (seen errs : List String)
      (i j : Nat) (nmi nmj : String) (di dj : List (String × PyVal)),
      files.get? i = some (nmi, VDict di) → pyGet di "id" = Option.none →
      files.get? j = some (nmj, VDict dj) → pyGet dj "id" = Option.none →
      i < j →
      (∀ l g, l < j → files.get? l = some g → fileCrashes g = false) →
      dupEmptyIdMsg nmj ∈ (runScan files seen errs).1) := by
  constructor
  · intro nm d seen hid
    rw [processFile_seen_dict]
    simp [hid, pyStr]
  · intro files
    induction files with
    | nil => intro seen errs i j nmi nmj di dj hi; simp at hi
    | cons f rest ih =>
      intro seen errs i j nmi nmj di dj hi hidi hj hidj hij hcrash
      rcases f with ⟨nm, v⟩
      match i, hi with
      | 0, hi =>
        obtain ⟨j0, rfl⟩ : ∃ j0, j = j0 + 1 := ⟨j - 1, by omega⟩
        have hf : nm = nmi ∧ v = VDict di := by
          simpa using And.intro (congrArg (fun p => (Prod.fst <$> p).getD "") hi)
            (congrArg (fun p => (Prod.snd <$> p).getD VNone) hi)
        obtain ⟨rfl, rfl⟩ := hf
        have hc0 : fileCrashes (nm, VDict di) = false :=
          hcrash 0 (nm, VDict di) (Nat.succ_pos j0) rfl
        simp only [runScan]
        rw [if_neg (by rw [processFile_crash_eq]; simp [hc0])]
        have hseen : "" ∈ (processFile nm (VDict di) seen).2.1 := by
          rw [processFile_seen_dict]; simp [hidi, pyStr]
        exact runScan_dup_of_seen rest _ _ j0 nmj dj (by simpa using hj) hidj hseen
          (fun l2 g hl2 hg => hcrash (l2 + 1) g (Nat.succ_lt_succ hl2) (by simpa using hg))
      | Nat.succ k, hi =>
        obtain ⟨j0, rfl⟩ : ∃ j0, j = j0 + 1 := ⟨j - 1, by omega⟩
        have hc0 : fileCrashes (nm, v) = false :=
          hcrash 0 (nm, v) (Nat.succ_pos j0) rfl
        simp only [runScan]
        rw [if_neg (by rw [processFile_crash_eq]; simp [hc0])]
        exact ih _ _ k j0 nmi nmj di dj (by simpa using hi) hidi (by simpa using hj) hidj
          (by omega)
          (fun l2 g hl2 hg => hcrash (l2 + 1) g (Nat.succ_lt_succ hl2) (by simpa using hg))

/-- C10 (counterexample to the claim as stated).  A catalog of two id-less
records where the first also carries `price_usd: "x"`: the claim says the
second must be reported as a duplicate of `''`, but the run aborts at the first
record's line-247 conversion and the second is never reported. -/
theorem missing_id_duplicate_counterexample :
    (validatorMain [("a.yaml", VDict [("price_usd", VStr "x")]),
        ("b.yaml", VDict [])]).2 = Option.none ∧
    dupEmptyIdMsg "b.yaml" ∉
      (validatorMain [("a.yaml", VDict [("price_usd", VStr "x")]),
        ("b.yaml", VDict [])]).1 := by
  refine ⟨by decide, by decide⟩

/-- C10 (witness).  On a two-file catalog of id-less records with no crashing
record, the amended theorem applies and the second file is reported. -/
theorem missing_id_duplicate_witness :
    dupEmptyIdMsg "b.yaml" ∈
      (runScan [("a.yaml", VDict []), ("b.yaml", VDict [])] [] []).1 := by
  apply missing_id_duplicate_reporting.2
    [("a.yaml", VDict []), ("b.yaml", VDict [])] [] [] 0 1 "a.yaml" "b.yaml" [] []
    rfl rfl rfl rfl (by omega)
  intro l g hl hg
  interval_cases l
  have : g = ("a.yaml", VDict []) := by simpa using hg.symm
  subst this
  decide

/-! ## C5: `unique_id` picks the first free suffix -/

theorem digitChar_toNat {d : Nat} (h : d < 10) : (digitChar d).toNat = 48 + d := by
  interval_cases d <;> rfl

theorem decVal_natDigitsAux : ∀ (fuel n : Nat), n < fuel →
    decVal (natDigitsAux fuel n) = n := by
  intro fuel
  induction fuel with
  | zero => omega
  | succ f ih =>
    intro n h
    by_cases h10 : n < 10
    · simp [natDigitsAux, h10, decVal, digitChar_toNat h10]
    · have hd : n / 10 < f := by
        have := Nat.div_lt_self (by omega : 0 < n) (by omega : 1 < 10)
        omega
      have hmod : n % 10 < 10 := Nat.mod_lt _ (by omega)
      have hstep : decVal (natDigitsAux f (n / 10) ++ [digitChar (n % 10)]) =
          decVal (natDigitsAux f (n / 10)) * 10 + ((digitChar (n % 10)).toNat - 48) := by
        simp [decVal, List.foldl_append]
      simp only [natDigitsAux, if_neg h10]
      rw [hstep, ih _ hd, digitChar_toNat hmod]
      omega

theorem natDigits_val (n : Nat) : decVal (natDigits n) = n :=
  decVal_natDigitsAux _ _ (Nat.lt_succ_self n)

theorem natDigits_inj : Function.Injective natDigits := by
  intro a b h
  have ha := natDigits_val a
  rw [h, natDigits_val] at ha
  omega

theorem candidateId_data (b : String) (k : Nat) :
    (candidateId b k).data = b.data ++ '-' :: natDigits k := by
  simp [candidateId, String.data_append]

theorem candidateId_inj (b : String) : Function.Injective (candidateId b) := by
  intro j k h
  have hd := congrArg String.data h
  rw [candidateId_data, candidateId_data] at hd
  exact natDigits_inj (by simpa using List.append_cancel_left hd)

theorem candidateId_ne (b : String) (k : Nat) : candidateId b k ≠ b := by
  intro h
  have hd := congrArg List.length (congrArg String.data h)
  rw [candidateId_data] at hd
  simp at hd

theorem findFreeIdxAux_spec (base : String) (used : List String) :
    ∀ (fuel k : Nat),
    ((List.range' k fuel).filter
        (fun j => decide (candidateId base j ∈ used))).length < fuel →
    candidateId base (findFreeIdxAux base used fuel k) ∉ used ∧
    k ≤ findFreeIdxAux base used fuel k ∧
    ∀ j, k ≤ j → j < findFreeIdxAux base used fuel k → candidateId base j ∈ used := by
  intro fuel
  induction fuel with
  | zero => omega
  | succ f ih =>
    intro k hcard
    by_cases hk : candidateId base k ∈ used
    · have hrange : List.range' k (f + 1) = k :: List.range' (k + 1) f :=
        List.range'_succ k f 1
      rw [hrange, List.filter_cons, if_pos (by simpa using hk)] at hcard
      simp only [List.length_cons] at hcard
      have hrec := ih (k + 1) (by omega)
      simp only [findFreeIdxAux, if_pos hk]
      refine ⟨hrec.1, by omega, fun j h2 hlt => ?_⟩
      rcases Nat.eq_or_lt_of_le h2 with rfl | hgt
      · exact hk
      · exact hrec.2.2 j hgt hlt
    · simp only [findFreeIdxAux, if_neg hk]
      exact ⟨hk, Nat.le_refl k, by omega⟩

theorem nodup_mem_length_le {m used : List String} (hn : m.Nodup)
    (hs : ∀ x ∈ m, x ∈ used) : m.length ≤ used.length := by
  calc m.length = m.toFinset.card := (List.toFinset_card_of_nodup hn).symm
    _ ≤ used.toFinset.card :=
        Finset.card_le_card (fun x hx => List.mem_toFinset.mpr (hs x (List.mem_toFinset.mp hx)))
    _ ≤ used.length := used.toFinset_card_le

theorem count_candidates_lt (base : String) (used : List String) :
    ((List.range' 2 (used.length + 1)).filter
        (fun j => decide (candidateId base j ∈ used))).length < used.length + 1 := by
  set l := (List.range' 2 (used.length + 1)).filter
    (fun j => decide (candidateId base j ∈ used)) with hl
  have hnodup : l.Nodup := (List.nodup_range' 2 (used.length + 1)).filter _
  have hmap : (l.map (candidateId base)).Nodup := hnodup.map (candidateId_inj base)
  have hsub : ∀ x ∈ l.map (candidateId base), x ∈ used := by
    intro x hx
    rcases List.mem_map.mp hx with ⟨j, hj, rfl⟩
    have := List.of_mem_filter hj
    simpa using this
  have hle := nodup_mem_length_le hmap hsub
  rw [List.length_map] at hle
  omega

theorem findFreeIdx_spec (base : String) (used : List String) :
    candidateId base (findFreeIdx base used) ∉ used ∧ 2 ≤ findFreeIdx base used ∧
    ∀ j, 2 ≤ j → j < findFreeIdx base used → candidateId base j ∈ used :=
  findFreeIdxAux_spec base used (used.length + 1) 2 (count_candidates_lt base used)

/-- C5.  `unique_id` returns the base itself when unused; otherwise
`f"{base}-{k}"` for the smallest `k ≥ 2` whose candidate is unused.  The
returned id is added to the set, and importing two raw records with the same
slug yields `base` and `base ++ "-2"`. -/
theorem unique_id_first_free :
    (∀ (base : String) (used : List String), base ∉ used →
      unique_id base used = (base, base :: used)) ∧
    (∀ (base : String) (used : List String), base ∈ used →
      ∃ k, 2 ≤ k ∧ (unique_id base used).1 = candidateId base k ∧
        candidateId base k ∉ used ∧
        ∀ j, 2 ≤ j → j < k → candidateId base j ∈ used) ∧
    (∀ (base : String) (used : List String),
      (unique_id base used).2 = (unique_id base used).1 :: used) ∧
    (∀ content : String,
      (importRunIds [content, content]).take 2 =
        [slugify content, slugify content ++ "-2"]) := by
  have huid2 : ∀ (base : String) (used : List String),
      (unique_id base used).2 = (unique_id base used).1 :: used := by
    intro b u
    unfold unique_id
    split <;> rfl
  refine ⟨fun b u h => by simp [unique_id, h], fun b u h => ?_, huid2, fun c => ?_⟩
  · obtain ⟨hfree, h2, hleast⟩ := findFreeIdx_spec b u
    exact ⟨findFreeIdx b u, h2, by simp [unique_id, h], hfree, hleast⟩
  · have h1 : unique_id (slugify c) [] = (slugify c, [slugify c]) := by
      simp [unique_id]
    have hidx : findFreeIdx (slugify c) [slugify c] = 2 := by
      simp [findFreeIdx, findFreeIdxAux, candidateId_ne]
    have h2 : (unique_id (slugify c) [slugify c]).1 = slugify c ++ "-2" := by
      have hmem : slugify c ∈ [slugify c] := List.mem_singleton_self _
      simp only [unique_id, if_pos hmem, hidx]
      apply string_ext_data
      rw [candidateId_data]
      simp [String.data_append, natDigits, natDigitsAux, digitChar]
    simp only [importRunIds, List.map_cons, List.map_nil, assignIds, h1]
    rw [show (unique_id (slugify c) [slugify c]) =
      ((unique_id (slugify c) [slugify c]).1, (unique_id (slugify c) [slugify c]).2) from rfl]
    simp [h2]

/-! ## C3: the import run's ids are unique and name their files -/

theorem unique_id_snd (b : String) (u : List String) :
    (unique_id b u).2 = (unique_id b u).1 :: u := by
  unfold unique_id
  split <;> rfl

theorem unique_id_fst_fresh (b : String) (u : List String) :
    (unique_id b u).1 ∉ u := by
  unfold unique_id
  split
  · exact (findFreeIdx_spec b u).1
  · next h => exact h

theorem candidateId_ne_empty (b : String) (k : Nat) : candidateId b k ≠ "" := by
  intro h
  have := congrArg String.data h
  rw [candidateId_data] at this
  simp at this

theorem unique_id_fst_ne_empty (b : String) (u : List String) (hb : b ≠ "") :
    (unique_id b u).1 ≠ "" := by
  unfold unique_id
  split
  · exact candidateId_ne_empty b _
  · exact hb

theorem assignIds_spec : ∀ (bases used : List String),
    (assignIds bases used).1.Nodup ∧
    (∀ x ∈ (assignIds bases used).1, x ∉ used) ∧
    (∀ x ∈ (assignIds bases used).1, x ∈ (assignIds bases used).2) ∧
    (∀ x ∈ used, x ∈ (assignIds bases used).2) := by
  intro bases
  induction bases with
  | nil => intro used; simp [assignIds]
  | cons b bs ih =>
    intro used
    obtain ⟨hnd, hfresh, hmem, hsup⟩ := ih (unique_id b used).2
    have hsnd := unique_id_snd b used
    have hhead := unique_id_fst_fresh b used
    simp only [assignIds]
    refine ⟨?_, ?_, ?_, ?_⟩
    · refine List.Nodup.cons (fun hin => ?_) hnd
      exact (hfresh _ hin) (hsnd ▸ List.mem_cons_self _ _)
    · intro x hx
      rcases List.mem_cons.mp hx with rfl | hx
      · exact hhead
      · intro hxu
        exact hfresh x hx (hsnd ▸ List.mem_cons_of_mem _ hxu)
    · intro x hx
      rcases List.mem_cons.mp hx with rfl | hx
      · exact hsup _ (hsnd ▸ List.mem_cons_self _ _)
      · exact hmem x hx
    · intro x hx
      exact hsup x (hsnd ▸ List.mem_cons_of_mem _ hx)

theorem assignIds_ne_empty : ∀ (bases used : List String),
    (∀ b ∈ bases, b ≠ "") → ∀ x ∈ (assignIds bases used).1, x ≠ "" := by
  intro bases
  induction bases with
  | nil => intro used _ x hx; simp [assignIds] at hx
  | cons b bs ih =>
    intro used hb x hx
    simp only [assignIds] at hx
    rcases List.mem_cons.mp hx with rfl | hx
    · exact unique_id_fst_ne_empty b used (hb b (List.mem_cons_self _ _))
    · exact ih _ (fun y hy => hb y (List.mem_cons_of_mem _ hy)) x hx

theorem slugifyChars_ne_nil (l : List Char) : slugifyChars l ≠ [] := by
  unfold slugifyChars
  dsimp only
  split
  · simp
  · next h => exact h

theorem slugify_ne_empty (s : String) : slugify s ≠ "" := by
  intro h
  exact slugifyChars_ne_nil s.data (by simpa using congrArg String.data h)

theorem dropWhile_yaml_suffix (r : List Char) :
    List.dropWhile (fun c => decide (c ≠ '.'))
      ('l' :: 'm' :: 'a' :: 'y' :: '.' :: r) = '.' :: r := by
  rw [List.dropWhile_cons, if_pos (by decide)]
  rw [List.dropWhile_cons, if_pos (by decide)]
  rw [List.dropWhile_cons, if_pos (by decide)]
  rw [List.dropWhile_cons, if_pos (by decide)]
  rw [List.dropWhile_cons, if_neg (by decide)]

theorem fileStem_append_yaml (idv : String) (h : idv ≠ "") :
    fileStem (idv ++ ".yaml") = idv := by
  have hdata : (idv ++ ".yaml").data.reverse =
      'l' :: 'm' :: 'a' :: 'y' :: '.' :: idv.data.reverse := by
    rw [String.data_append]
    rw [List.reverse_append]
    rfl
  have hne : idv.data.reverse ≠ [] := by
    intro hx
    apply h
    apply string_ext_data
    simpa using congrArg List.reverse hx
  unfold fileStem
  rw [hdata, dropWhile_yaml_suffix]
  show (if idv.data.reverse = [] then idv ++ ".yaml"
    else String.mk idv.data.reverse.reverse) = idv
  rw [if_neg hne]
  apply string_ext_data
  simp

/-- C3.  In every import run the raw records' ids and the hand-authored extra
records' ids, drawn from the one shared used-id set, are pairwise distinct, and
every record's file `f"{id}.yaml"` has filename stem equal to its id. -/
theorem import_run_ids_unique :
    (∀ contents : List String, (importRunIds contents).Nodup) ∧
    (∀ contents : List String, ∀ idv ∈ importRunIds contents,
      fileStem (idv ++ ".yaml") = idv) := by
  have hne : ∀ contents : List String, ∀ idv ∈ importRunIds contents, idv ≠ "" := by
    intro contents idv hmem
    simp only [importRunIds] at hmem
    rcases List.mem_append.mp hmem with hx | hx
    · exact assignIds_ne_empty _ _ (by
        intro b hb
        rcases List.mem_map.mp hb with ⟨c, _, rfl⟩
        exact slugify_ne_empty c) idv hx
    · exact assignIds_ne_empty _ _ (by decide) idv hx
  constructor
  · intro contents
    simp only [importRunIds]
    obtain ⟨hnd1, _, hmem1, _⟩ := assignIds_spec (contents.map slugify) []
    obtain ⟨hnd2, hfresh2, _, _⟩ :=
      assignIds_spec extraBaseIds (assignIds (contents.map slugify) []).2
    refine List.Nodup.append hnd1 hnd2 ?_
    intro a ha1 ha2
    exact hfresh2 a ha2 (hmem1 a ha1)
  · intro contents idv hmem
    exact fileStem_append_yaml idv (hne contents idv hmem)

/-! ## C6: `slugify` is idempotent

A valid slug (the spec's sense: non-empty, lowercase alphanumerics and single
hyphens, no leading or trailing hyphen) is captured by `headSlug` (first
character alphanumeric) plus `STailB` (hyphens isolated and followed by an
alphanumeric, nothing else but slug characters). -/

theorem isSlugChar_dash : isSlugChar '-' = false := by decide

theorem slug_not_dash {c : Char} (h : isSlugChar c = true) : (c == '-') = false := by
  by_cases hc : c = '-'
  · subst hc; exact absurd h (by decide)
  · simpa using hc

theorem slugOrDash_lower_fix {c : Char} (h : isSlugChar c = true ∨ c = '-') :
    lowerChar c = c := by
  unfold lowerChar
  apply if_neg
  rcases h with h | rfl
  · simp [isSlugChar, isDigitChar] at h
    omega
  · decide

theorem slugOrDash_not_space {c : Char} (h : isSlugChar c = true ∨ c = '-') :
    isPySpace c = false := by
  rcases h with h | rfl
  · simp [isSlugChar, isDigitChar] at h
    simp [isPySpace]
    omega
  · decide

theorem STailB_tail {c : Char} {t : List Char} (h : STailB (c :: t) = true)
    (hc : isSlugChar c = true) : STailB t = true := by
  cases t with
  | nil => rfl
  | cons d t' => simpa [STailB, hc] using h

theorem STailB_cons_dash {t : List Char} (h : STailB ('-' :: t) = true) :
    ∃ d t', t = d :: t' ∧ isSlugChar d = true ∧ STailB t' = true := by
  cases t with
  | nil => exact absurd h (by decide)
  | cons d t' =>
    have h2 : isSlugChar d = true ∧ STailB t' = true := by
      simpa [STailB, isSlugChar_dash] using h
    exact ⟨d, t', rfl, h2.1, h2.2⟩

theorem collapseRuns_chars : ∀ (l : List Char) (b : Bool),
    ∀ c ∈ collapseRuns l b, isSlugChar c = true ∨ c = '-' := by
  intro l
  induction l with
  | nil => intro b c hc; simp [collapseRuns] at hc
  | cons a t ih =>
    intro b c hc
    by_cases ha : isSlugChar a = true
    · rw [collapseRuns, if_pos ha] at hc
      rcases List.mem_cons.mp hc with rfl | hc
      · exact Or.inl ha
      · exact ih false c hc
    · rw [collapseRuns, if_neg ha] at hc
      cases b with
      | true => exact ih true c (by simpa using hc)
      | false =>
        rcases List.mem_cons.mp (by simpa using hc) with rfl | hc2
        · exact Or.inr rfl
        · exact ih true c hc2

theorem collapseRuns_true_head : ∀ l : List Char, headSlug (collapseRuns l true) := by
  intro l
  induction l with
  | nil => trivial
  | cons a t ih =>
    by_cases ha : isSlugChar a = true
    · rw [collapseRuns, if_pos ha]; exact ha
    · rw [collapseRuns, if_neg ha]; simpa using ih

theorem noDD_tail {c : Char} {l : List Char} (h : noDoubleDash (c :: l) = true) :
    noDoubleDash l = true := by
  cases l with
  | nil => rfl
  | cons b t => exact ((Bool.and_eq_true _ _).mp h).2

theorem noDD_cons_slug {c : Char} {l : List Char} (hc : isSlugChar c = true)
    (hl : noDoubleDash l = true) : noDoubleDash (c :: l) = true := by
  cases l with
  | nil => rfl
  | cons b t =>
    rw [noDoubleDash]
    simp [slug_not_dash hc, hl]

theorem noDD_cons_dash {l : List Char} (hl : noDoubleDash l = true)
    (hh : headSlug l) : noDoubleDash ('-' :: l) = true := by
  cases l with
  | nil => rfl
  | cons b t =>
    rw [noDoubleDash]
    have hb : isSlugChar b = true := hh
    simp [slug_not_dash hb, hl]

theorem collapseRuns_noDD : ∀ (l : List Char) (b : Bool),
    noDoubleDash (collapseRuns l b) = true := by
  intro l
  induction l with
  | nil => intro b; rfl
  | cons a t ih =>
    intro b
    by_cases ha : isSlugChar a = true
    · rw [collapseRuns, if_pos ha]
      exact noDD_cons_slug ha (ih false)
    · rw [collapseRuns, if_neg ha]
      cases b with
      | true => exact ih true
      | false =>
        simp only [Bool.false_eq_true, if_false]
        exact noDD_cons_dash (ih true) (collapseRuns_true_head t)

theorem dropWhile_decomp (p : Char → Bool) :
    ∀ l : List Char, ∃ t, l = t ++ l.dropWhile p := by
  intro l
  induction l with
  | nil => exact ⟨[], rfl⟩
  | cons c t ih =>
    by_cases hc : p c = true
    · obtain ⟨t0, ht0⟩ := ih
      exact ⟨c :: t0, by simpa [List.dropWhile, hc] using ht0⟩
    · exact ⟨[], by simp [List.dropWhile, hc]⟩

theorem dropRightWhile_decomp (p : Char → Bool) (l : List Char) :
    ∃ t, l = dropRightWhile p l ++ t := by
  obtain ⟨t, ht⟩ := dropWhile_decomp p l.reverse
  refine ⟨t.reverse, ?_⟩
  have := congrArg List.reverse ht
  simpa [dropRightWhile, List.reverse_append] using this

theorem noDD_append_left : ∀ {l1 l2 : List Char},
    noDoubleDash (l1 ++ l2) = true → noDoubleDash l1 = true := by
  intro l1
  induction l1 with
  | nil => intro l2 _; rfl
  | cons a t ih =>
    intro l2 h
    cases t with
    | nil => rfl
    | cons b t' =>
      rw [List.cons_append, List.cons_append, noDoubleDash] at h
      rw [noDoubleDash]
      have h' := (Bool.and_eq_true _ _).mp h
      exact (Bool.and_eq_true _ _).mpr ⟨h'.1, ih (by simpa using h'.2)⟩

theorem head_dropWhile_false (p : Char → Bool) :
    ∀ (l : List Char) {c t}, l.dropWhile p = c :: t → p c = false := by
  intro l
  induction l with
  | nil => intro c t h; simp at h
  | cons a t0 ih =>
    intro c t h
    by_cases ha : p a = true
    · rw [List.dropWhile_cons, if_pos ha] at h
      exact ih h
    · rw [List.dropWhile_cons, if_neg ha] at h
      cases h
      simpa using ha

theorem dropWhile_eq_self_of_head (p : Char → Bool) {l : List Char}
    (h : ∀ c t, l = c :: t → p c = false) : l.dropWhile p = l := by
  cases l with
  | nil => rfl
  | cons c t => rw [List.dropWhile_cons, if_neg (by simp [h c t rfl])]

theorem dropRightWhile_eq_self (p : Char → Bool) {l : List Char}
    (h : ∀ c, l.getLast? = some c → p c = false) : dropRightWhile p l = l := by
  unfold dropRightWhile
  rw [dropWhile_eq_self_of_head p, List.reverse_reverse]
  intro c t hrev
  apply h
  rw [← List.head?_reverse]
  simp [hrev]

theorem build_STailB : ∀ l : List Char,
    (∀ c ∈ l, isSlugChar c = true ∨ c = '-') → noDoubleDash l = true →
    (∀ c, l.getLast? = some c → c ≠ '-') → STailB l = true := by
  intro l
  induction l with
  | nil => intro _ _ _; rfl
  | cons a t ih =>
    intro hmem hdd hlast
    cases t with
    | nil =>
      have := hmem a (by simp)
      rcases this with h | rfl
      · simpa [STailB] using h
      · exact absurd rfl (hlast '-' rfl)
    | cons b t' =>
      by_cases ha : isSlugChar a = true
      · have hs : STailB (b :: t') = true := by
          refine ih (fun c hc => hmem c (List.mem_cons_of_mem _ hc)) (noDD_tail hdd) ?_
          intro c hc
          exact hlast c (by rwa [List.getLast?_cons_cons])
        simpa [STailB, ha] using hs
      · have ha' : a = '-' := by
          rcases hmem a (by simp) with h | h
          · exact absurd h ha
          · exact h
        subst ha'
        have hb : (b == '-') = false := by
          rw [noDoubleDash] at hdd
          have := ((Bool.and_eq_true _ _).mp hdd).1
          simpa using this
        have hbslug : isSlugChar b = true := by
          rcases hmem b (by simp) with h | h
          · exact h
          · rw [h] at hb; simp at hb
        have hs : STailB (b :: t') = true := by
          refine ih (fun c hc => hmem c (List.mem_cons_of_mem _ hc)) (noDD_tail hdd) ?_
          intro c hc
          exact hlast c (by rwa [List.getLast?_cons_cons])
        have ht' : STailB t' = true := STailB_tail hs hbslug
        simp [STailB, isSlugChar_dash, hbslug, ht']

theorem STailB_chars : ∀ l : List Char, STailB l = true →
    ∀ c ∈ l, isSlugChar c = true ∨ c = '-' := by
  intro l
  induction l with
  | nil => intro _ c hc; simp at hc
  | cons a t ih =>
    intro h c hc
    by_cases ha : isSlugChar a = true
    · rcases List.mem_cons.mp hc with rfl | hc
      · exact Or.inl ha
      · exact ih (STailB_tail h ha) c hc
    · have ha' : a = '-' := by
        cases t with
        | nil => exact absurd (by simpa [STailB] using h) ha
        | cons d t' =>
          rw [STailB, if_neg ha] at h
          have := ((Bool.and_eq_true _ _).mp h).1
          have := ((Bool.and_eq_true _ _).mp this).1
          simpa using this
      subst ha'
      obtain ⟨d, t', rfl, hd, ht'⟩ := STailB_cons_dash h
      rcases List.mem_cons.mp hc with rfl | hc
      · exact Or.inr rfl
      · have hs : STailB (d :: t') = true := by
          cases t' with
          | nil => simpa [STailB] using hd
          | cons e t2 => simp [STailB, hd, ht']
        exact ih hs c hc

theorem STailB_getLast : ∀ l : List Char, STailB l = true →
    ∀ c, l.getLast? = some c → isSlugChar c = true := by
  intro l
  induction l with
  | nil => intro _ c hc; simp at hc
  | cons a t ih =>
    intro h c hc
    cases t with
    | nil =>
      have : a = c := by simpa using hc
      subst this
      simpa [STailB] using h
    | cons b t' =>
      rw [List.getLast?_cons_cons] at hc
      by_cases ha : isSlugChar a = true
      · exact ih (STailB_tail h ha) c hc
      · have ha' : a = '-' := by
          rcases STailB_chars _ h a (by simp) with h2 | h2
          · exact absurd h2 ha
          · exact h2
        subst ha'
        have hb : isSlugChar b = true ∧ STailB t' = true := by
          simpa [STailB, isSlugChar_dash] using h
        have hs : STailB (b :: t') = true := by
          cases t' with
          | nil => simpa [STailB] using hb.1
          | cons e t3 => simp [STailB, hb.1, hb.2]
        exact ih hs c hc

theorem collapseRuns_fix : ∀ l : List Char, STailB l = true →
    collapseRuns l false = l ∧ (headSlug l → collapseRuns l true = l) := by
  intro l
  induction l with
  | nil => exact fun _ => ⟨rfl, fun _ => rfl⟩
  | cons c t ih =>
    intro h
    by_cases hc : isSlugChar c = true
    · have hfix := (ih (STailB_tail h hc)).1
      refine ⟨?_, fun _ => ?_⟩ <;> rw [collapseRuns, if_pos hc, hfix]
    · have hc' : c = '-' := by
        rcases STailB_chars _ h c (by simp) with h2 | h2
        · exact absurd h2 hc
        · exact h2
      subst hc'
      obtain ⟨d, t', rfl, hd, ht'⟩ := STailB_cons_dash h
      have hdt : STailB (d :: t') = true := by
        cases t' with
        | nil => simpa [STailB] using hd
        | cons e t3 => simp [STailB, hd, ht']
      have h2 := (ih hdt).2 hd
      refine ⟨?_, fun hh => ?_⟩
      · rw [collapseRuns, if_neg hc]
        simp [h2]
      · exact absurd hh (by simp [headSlug, isSlugChar_dash])

theorem map_lower_fix {l : List Char}
    (h : ∀ c ∈ l, isSlugChar c = true ∨ c = '-') : l.map lowerChar = l := by
  induction l with
  | nil => rfl
  | cons c t ih =>
    rw [List.map_cons, slugOrDash_lower_fix (h c (by simp)),
      ih (fun d hd => h d (List.mem_cons_of_mem _ hd))]

theorem pyStripChars_fix {l : List Char} (h : ∀ c ∈ l, isPySpace c = false) :
    pyStripChars l = l := by
  unfold pyStripChars
  rw [dropWhile_eq_self_of_head isPySpace (fun c t hct => h c (by rw [hct]; simp)),
    dropRightWhile_eq_self isPySpace
      (fun c hc => h c (List.mem_of_getLast?_eq_some hc))]

theorem stripDashes_fix {l : List Char}
    (hhead : ∀ c t, l = c :: t → (c == '-') = false)
    (hlast : ∀ c, l.getLast? = some c → (c == '-') = false) : stripDashes l = l := by
  unfold stripDashes
  rw [dropWhile_eq_self_of_head _ hhead, dropRightWhile_eq_self _ hlast]

theorem slugifyChars_fix {l : List Char} (h1 : STailB l = true) (h2 : headSlug l)
    (h3 : l ≠ []) : slugifyChars l = l := by
  have hmem := STailB_chars l h1
  unfold slugifyChars
  dsimp only
  rw [map_lower_fix hmem,
    pyStripChars_fix (fun c hc => slugOrDash_not_space (hmem c hc)),
    (collapseRuns_fix l h1).1,
    stripDashes_fix
      (fun c t hct => slug_not_dash (by rw [hct] at h2; exact h2))
      (fun c hc => slug_not_dash (STailB_getLast l h1 c hc)),
    if_neg h3]

theorem noDD_append_right : ∀ {l1 l2 : List Char},
    noDoubleDash (l1 ++ l2) = true → noDoubleDash l2 = true := by
  intro l1
  induction l1 with
  | nil => intro l2 h; exact h
  | cons a t ih => intro l2 h; exact ih (noDD_tail (by simpa using h))

theorem mem_stripDashes {l : List Char} {c : Char} (h : c ∈ stripDashes l) :
    c ∈ l := by
  unfold stripDashes at h
  obtain ⟨t2, ht2⟩ := dropRightWhile_decomp (· == '-') (l.dropWhile (· == '-'))
  obtain ⟨t1, ht1⟩ := dropWhile_decomp (· == '-') l
  have h2 : c ∈ l.dropWhile (· == '-') := by
    rw [ht2]; exact List.mem_append_left _ h
  rw [ht1]
  exact List.mem_append_right _ h2

theorem noDD_stripDashes {l : List Char} (h : noDoubleDash l = true) :
    noDoubleDash (stripDashes l) = true := by
  unfold stripDashes
  obtain ⟨t2, ht2⟩ := dropRightWhile_decomp (· == '-') (l.dropWhile (· == '-'))
  obtain ⟨t1, ht1⟩ := dropWhile_decomp (· == '-') l
  have h2 : noDoubleDash (l.dropWhile (· == '-')) = true :=
    noDD_append_right (by rw [← ht1]; exact h)
  exact noDD_append_left (by rw [← ht2]; exact h2)

theorem head_stripDashes_false {l : List Char} {c : Char} {t : List Char}
    (h : stripDashes l = c :: t) : (c == '-') = false := by
  unfold stripDashes at h
  obtain ⟨t2, ht2⟩ := dropRightWhile_decomp (· == '-') (l.dropWhile (· == '-'))
  rw [h] at ht2
  exact head_dropWhile_false (· == '-') l ht2

theorem last_dropRightWhile_false (p : Char → Bool) (l : List Char) {c : Char}
    (h : (dropRightWhile p l).getLast? = some c) : p c = false := by
  unfold dropRightWhile at h
  rw [List.getLast?_reverse] at h
  cases hx : l.reverse.dropWhile p with
  | nil => rw [hx] at h; simp at h
  | cons a t =>
    rw [hx] at h
    simp only [List.head?_cons, Option.some.injEq] at h
    subst h
    exact head_dropWhile_false p _ hx

theorem last_stripDashes_false {l : List Char} {c : Char}
    (h : (stripDashes l).getLast? = some c) : (c == '-') = false :=
  last_dropRightWhile_false (· == '-') _ h

theorem slugifyChars_valid (l : List Char) :
    STailB (slugifyChars l) = true ∧ headSlug (slugifyChars l) := by
  unfold slugifyChars
  dsimp only
  split
  · refine ⟨by decide, ?_⟩
    show isSlugChar 'c' = true
    decide
  · next hne =>
    have hmem : ∀ c ∈ stripDashes (collapseRuns (pyStripChars
        (l.map lowerChar)) false), isSlugChar c = true ∨ c = '-' :=
      fun c hc => collapseRuns_chars _ false c (mem_stripDashes hc)
    have hdd := noDD_stripDashes
      (collapseRuns_noDD (pyStripChars (l.map lowerChar)) false)
    have hst : STailB (stripDashes (collapseRuns (pyStripChars
        (l.map lowerChar)) false)) = true := by
      refine build_STailB _ hmem hdd ?_
      intro c hc hdash
      subst hdash
      have := last_stripDashes_false hc
      simp at this
    refine ⟨hst, ?_⟩
    cases hx : stripDashes (collapseRuns (pyStripChars (l.map lowerChar)) false) with
    | nil => exact absurd hx hne
    | cons c t =>
      show isSlugChar c = true
      have hnd := head_stripDashes_false hx
      rcases hmem c (by rw [hx]; simp) with h2 | h2
      · exact h2
      · rw [h2] at hnd; simp at hnd

/-- C6.  Slug generation is idempotent: `slugify (slugify s) = slugify s` for
every string, and a string that is already a valid slug (non-empty, lowercase
alphanumerics with isolated interior hyphens) is returned unchanged. -/
theorem slugify_idempotent :
    (∀ s : String, slugify (slugify s) = slugify s) ∧
    (∀ s : String, s.data ≠ [] → headSlug s.data → STailB s.data = true →
      slugify s = s) := by
  have data_mk : ∀ l : List Char, (String.mk l).data = l := fun _ => rfl
  constructor
  · intro s
    obtain ⟨h1, h2⟩ := slugifyChars_valid s.data
    have hfix := slugifyChars_fix h1 h2 (slugifyChars_ne_nil s.data)
    conv_lhs => rw [slugify]
    rw [slugify, data_mk, hfix]
  · intro s hne hh ht
    have hfix := slugifyChars_fix ht hh hne
    rw [slugify, hfix]

/-! ## C7: the rebuilt index is a sorted, presence-determined function -/

theorem charToNat_inj {a b : Char} (h : a.toNat = b.toNat) : a = b :=
  Char.ext (UInt32.toNat.inj h)

theorem lexLe_total : ∀ a b : List Char, lexLe a b = true ∨ lexLe b a = true := by
  intro a
  induction a with
  | nil => intro b; left; rfl
  | cons x xs ih =>
    intro b
    cases b with
    | nil => right; rfl
    | cons y ys =>
      simp only [lexLe]
      by_cases hlt : x.toNat < y.toNat
      · left; rw [if_pos hlt]
      · by_cases heq : x.toNat = y.toNat
        · rw [if_neg hlt, if_pos heq, if_neg (by omega), if_pos (by omega)]
          exact ih ys
        · right; rw [if_pos (by omega)]

theorem lexLe_trans : ∀ a b c : List Char,
    lexLe a b = true → lexLe b c = true → lexLe a c = true := by
  intro a
  induction a with
  | nil => intro b c _ _; rfl
  | cons x xs ih =>
    intro b c hab hbc
    cases b with
    | nil => simp [lexLe] at hab
    | cons y ys =>
      cases c with
      | nil => simp [lexLe] at hbc
      | cons z zs =>
        simp only [lexLe] at hab hbc ⊢
        by_cases hxz : x.toNat < z.toNat
        · rw [if_pos hxz]
        · by_cases hxez : x.toNat = z.toNat
          · rw [if_neg hxz, if_pos hxez]
            by_cases h1 : x.toNat < y.toNat
            · rw [if_neg (by omega), if_neg (by omega)] at hbc
              exact absurd hbc (by simp)
            · by_cases h1e : x.toNat = y.toNat
              · rw [if_neg h1, if_pos h1e] at hab
                rw [if_neg (by omega), if_pos (by omega)] at hbc
                exact ih ys zs hab hbc
              · rw [if_neg h1, if_neg h1e] at hab
                exact absurd hab (by simp)
          · by_cases h1 : x.toNat < y.toNat
            · rw [if_neg (by omega), if_neg (by omega)] at hbc
              exact absurd hbc (by simp)
            · by_cases h1e : x.toNat = y.toNat
              · rw [if_neg (by omega), if_neg (by omega)] at hbc
                exact absurd hbc (by simp)
              · rw [if_neg h1, if_neg h1e] at hab
                exact absurd hab (by simp)

theorem lexLe_antisymm : ∀ a b : List Char,
    lexLe a b = true → lexLe b a = true → a = b := by
  intro a
  induction a with
  | nil =>
    intro b _ hba
    cases b with
    | nil => rfl
    | cons y ys => simp [lexLe] at hba
  | cons x xs ih =>
    intro b hab hba
    cases b with
    | nil => simp [lexLe] at hab
    | cons y ys =>
      simp only [lexLe] at hab hba
      by_cases h1 : x.toNat < y.toNat
      · rw [if_neg (by omega), if_neg (by omega)] at hba
        exact absurd hba (by simp)
      · by_cases h2 : x.toNat = y.toNat
        · rw [if_neg h1, if_pos h2] at hab
          rw [if_neg (by omega), if_pos (by omega)] at hba
          rw [charToNat_inj h2, ih ys hab hba]
        · rw [if_neg h1, if_neg h2] at hab
          exact absurd hab (by simp)

instance : IsTotal String (fun a b => pyStrLe a b = true) :=
  ⟨fun a b => lexLe_total a.data b.data⟩

instance : IsTrans String (fun a b => pyStrLe a b = true) :=
  ⟨fun a b c => lexLe_trans a.data b.data c.data⟩

instance : IsAntisymm String (fun a b => pyStrLe a b = true) :=
  ⟨fun a b h1 h2 => string_ext_data (lexLe_antisymm a.data b.data h1 h2)⟩

theorem sortStrings_sorted (l : List String) :
    List.Sorted (fun a b => pyStrLe a b = true) (sortStrings l) :=
  List.sorted_insertionSort _ l

theorem sortStrings_perm (l : List String) : (sortStrings l).Perm l :=
  List.perm_insertionSort _ l

theorem sortStrings_eq_of_perm {l1 l2 : List String} (h : l1.Perm l2) :
    sortStrings l1 = sortStrings l2 :=
  List.eq_of_perm_of_sorted
    ((sortStrings_perm l1).trans (h.trans (sortStrings_perm l2).symm))
    (sortStrings_sorted l1) (sortStrings_sorted l2)

theorem mem_setAdd {l : List String} {x y : String} :
    x ∈ setAdd l y ↔ x ∈ l ∨ x = y := by
  unfold setAdd
  split
  · next h => exact ⟨Or.inl, fun h2 => h2.elim id (fun he => he ▸ h)⟩
  · simp [List.mem_append]

theorem nodup_setAdd {l : List String} (h : l.Nodup) (y : String) :
    (setAdd l y).Nodup := by
  unfold setAdd
  split
  · exact h
  · next hy =>
    refine h.append (List.nodup_singleton y) ?_
    intro a ha hay
    rw [List.mem_singleton] at hay
    exact hy (hay ▸ ha)

theorem mem_foldl_setAdd : ∀ (xs acc : List String) (x : String),
    x ∈ xs.foldl setAdd acc ↔ x ∈ acc ∨ x ∈ xs := by
  intro xs
  induction xs with
  | nil => simp
  | cons a t ih =>
    intro acc x
    rw [List.foldl_cons, ih]
    rw [mem_setAdd]
    simp only [List.mem_cons]
    tauto

theorem nodup_foldl_setAdd : ∀ (xs acc : List String), acc.Nodup →
    (xs.foldl setAdd acc).Nodup := by
  intro xs
  induction xs with
  | nil => exact fun acc h => h
  | cons a t ih => exact fun acc h => ih _ (nodup_setAdd h a)

theorem mem_collectedDomains (recs : List CertFile) (x : String) :
    x ∈ collectedDomains recs ↔ ∃ r ∈ recs, domainOf r = x := by
  unfold collectedDomains
  rw [← List.foldl_map, mem_foldl_setAdd]
  simp [List.mem_map]

theorem nodup_collectedDomains (recs : List CertFile) :
    (collectedDomains recs).Nodup := by
  unfold collectedDomains
  rw [← List.foldl_map]
  exact nodup_foldl_setAdd _ _ List.nodup_nil

theorem mem_foldl_setAdd_nested : ∀ (rs : List CertFile) (acc : List String) (x : String),
    x ∈ rs.foldl (fun acc r => (subsOf r).foldl setAdd acc) acc ↔
      x ∈ acc ∨ ∃ r ∈ rs, x ∈ subsOf r := by
  intro rs
  induction rs with
  | nil => simp
  | cons r t ih =>
    intro acc x
    rw [List.foldl_cons, ih, mem_foldl_setAdd]
    simp only [List.mem_cons]
    constructor
    · rintro ((h | h) | ⟨r2, hr2, hx⟩)
      · exact Or.inl h
      · exact Or.inr ⟨r, Or.inl rfl, h⟩
      · exact Or.inr ⟨r2, Or.inr hr2, hx⟩
    · rintro (h | ⟨r2, (rfl | hr2), hx⟩)
      · exact Or.inl (Or.inl h)
      · exact Or.inl (Or.inr hx)
      · exact Or.inr ⟨r2, hr2, hx⟩

theorem mem_collectedSubAreas (recs : List CertFile) (x : String) :
    x ∈ collectedSubAreas recs ↔ ∃ r ∈ recs, x ∈ subsOf r := by
  unfold collectedSubAreas
  rw [mem_foldl_setAdd_nested]
  simp

theorem nodup_collectedSubAreas (recs : List CertFile) :
    (collectedSubAreas recs).Nodup := by
  unfold collectedSubAreas
  have gen : ∀ (rs : List CertFile) (acc : List String), acc.Nodup →
      (rs.foldl (fun acc r => (subsOf r).foldl setAdd acc) acc).Nodup := by
    intro rs
    induction rs with
    | nil => exact fun acc h => h
    | cons r t ih => exact fun acc h => ih _ (nodup_foldl_setAdd _ _ h)
  exact gen recs [] List.nodup_nil

/-- C7.  The rebuilt index's `certifications` list is the sorted permutation of
the record filenames; the `domains` and `sub_areas` lists are the canonical
priority order restricted to the values actually present, followed by the
unrecognized present values in sorted order without duplicates; and all three
lists depend only on the records' contents — two reads of the same records, in
any order (so in particular two runs with no intervening edits), produce
identical lists. -/
theorem rebuild_index_characterization :
    (∀ recs : List CertFile,
      (rebuiltCertifications recs).Perm (recs.map CertFile.fileName) ∧
      List.Sorted (fun a b => pyStrLe a b = true) (rebuiltCertifications recs)) ∧
    (∀ recs : List CertFile, ∃ extra : List String,
      orderedDomains recs =
        DOMAIN_ORDER.filter (fun d => decide (∃ r ∈ recs, domainOf r = d)) ++ extra ∧
      List.Sorted (fun a b => pyStrLe a b = true) extra ∧ extra.Nodup ∧
      (∀ x, x ∈ extra ↔ ((∃ r ∈ recs, domainOf r = x) ∧ x ∉ DOMAIN_ORDER))) ∧
    (∀ recs : List CertFile, ∃ extra : List String,
      orderedSubAreas recs =
        SUBAREA_ORDER.filter (fun a => decide (∃ r ∈ recs, a ∈ subsOf r)) ++ extra ∧
      List.Sorted (fun a b => pyStrLe a b = true) extra ∧ extra.Nodup ∧
      (∀ x, x ∈ extra ↔ ((∃ r ∈ recs, x ∈ subsOf r) ∧ x ∉ SUBAREA_ORDER))) ∧
    (∀ recs recs' : List CertFile, recs.Perm recs' →
      rebuiltCertifications recs = rebuiltCertifications recs' ∧
      orderedDomains recs = orderedDomains recs' ∧
      orderedSubAreas recs = orderedSubAreas recs') := by
  refine ⟨fun recs => ⟨sortStrings_perm _, sortStrings_sorted _⟩,
    fun recs => ?_, fun recs => ?_, fun recs recs' hp => ?_⟩
  · refine ⟨sortStrings ((collectedDomains recs).filter
      (fun d => decide (d ∉ DOMAIN_ORDER))), ?_, sortStrings_sorted _, ?_, ?_⟩
    · unfold orderedDomains
      congr 1
      exact List.filter_congr fun d _ =>
        decide_eq_decide.mpr (mem_collectedDomains recs d)
    · exact ((sortStrings_perm _).nodup_iff).mpr
        ((nodup_collectedDomains recs).filter _)
    · intro x
      rw [(sortStrings_perm _).mem_iff, List.mem_filter,
        mem_collectedDomains recs x]
      simp
  · refine ⟨sortStrings ((collectedSubAreas recs).filter
      (fun a => decide (a ∉ SUBAREA_ORDER))), ?_, sortStrings_sorted _, ?_, ?_⟩
    · unfold orderedSubAreas
      congr 1
      exact List.filter_congr fun a _ =>
        decide_eq_decide.mpr (mem_collectedSubAreas recs a)
    · exact ((sortStrings_perm _).nodup_iff).mpr
        ((nodup_collectedSubAreas recs).filter _)
    · intro x
      rw [(sortStrings_perm _).mem_iff, List.mem_filter,
        mem_collectedSubAreas recs x]
      simp
  · have hdomMem : ∀ d, d ∈ collectedDomains recs ↔ d ∈ collectedDomains recs' := by
      intro d
      rw [mem_collectedDomains, mem_collectedDomains]
      constructor
      · rintro ⟨r, hr, h⟩; exact ⟨r, hp.mem_iff.mp hr, h⟩
      · rintro ⟨r, hr, h⟩; exact ⟨r, hp.mem_iff.mpr hr, h⟩
    have hsubMem : ∀ a, a ∈ collectedSubAreas recs ↔ a ∈ collectedSubAreas recs' := by
      intro a
      rw [mem_collectedSubAreas, mem_collectedSubAreas]
      constructor
      · rintro ⟨r, hr, h⟩; exact ⟨r, hp.mem_iff.mp hr, h⟩
      · rintro ⟨r, hr, h⟩; exact ⟨r, hp.mem_iff.mpr hr, h⟩
    refine ⟨sortStrings_eq_of_perm (hp.map _), ?_, ?_⟩
    · unfold orderedDomains
      congr 1
      · exact List.filter_congr fun d _ => decide_eq_decide.mpr (hdomMem d)
      · refine sortStrings_eq_of_perm ((List.perm_ext_iff_of_nodup
          ((nodup_collectedDomains recs).filter _)
          ((nodup_collectedDomains recs').filter _)).mpr ?_)
        intro a
        rw [List.mem_filter, List.mem_filter, hdomMem a]
    · unfold orderedSubAreas
      congr 1
      · exact List.filter_congr fun a _ => decide_eq_decide.mpr (hsubMem a)
      · refine sortStrings_eq_of_perm ((List.perm_ext_iff_of_nodup
          ((nodup_collectedSubAreas recs).filter _)
          ((nodup_collectedSubAreas recs').filter _)).mpr ?_)
        intro a
        rw [List.mem_filter, List.mem_filter, hsubMem a]

/-! ## C8: provider inference -/

theorem lookupProvider_eq_find (host : String) : ∀ t : List (String × String),
    lookupProvider host t =
      (t.find? fun kv =>
        host == kv.1 || ("." ++ kv.1).data.isSuffixOf host.data).map Prod.snd := by
  intro t
  induction t with
  | nil => rfl
  | cons kv rest ih =>
    rcases kv with ⟨k, p⟩
    have hcond : (fun kv : String × String =>
        host == kv.1 || ("." ++ kv.1).data.isSuffixOf host.data) (k, p)
        = (host == k || ("." ++ k).data.isSuffixOf host.data) := rfl
    rw [List.find?_cons]
    cases h : (host == k || ("." ++ k).data.isSuffixOf host.data) with
    | true =>
      rw [lookupProvider, if_pos h]
      simp only [hcond, h]
      rfl
    | false =>
      have h2 := h
      rw [Bool.or_eq_false_iff] at h2
      have h22 : (('.' :: k.data).isSuffixOf host.data) = false := h2.2
      have h3 : ¬ ('.' :: k.data <:+ host.data) := by
        intro hs
        have htrue := List.isSuffixOf_iff_suffix.mpr hs
        rw [h22] at htrue
        exact Bool.false_ne_true htrue
      rw [lookupProvider, if_neg (by simp [h2.1, h3])]
      simp only [hcond, h]
      exact ih

/-- C8 (counterexample to the claim as stated).  The code removes every
occurrence of `www.` from the host, not only a prefix: for
`https://wwwww.x.com/x` (host `wwwww.x.com`, which does not start with `www.`)
the code yields `Wwx` while the claim's procedure yields `X`. -/
theorem provider_inference_counterexample :
    parse_provider "https://wwwww.x.com/x" = "Wwx" ∧
    parse_provider_claimed "https://wwwww.x.com/x" = "X" ∧
    parse_provider "https://wwwww.x.com/x" ≠
      parse_provider_claimed "https://wwwww.x.com/x" := by
  refine ⟨by decide, by decide, by decide⟩

/-- C8 (amended).  With "strips a literal `www.` prefix" amended to "removes
every occurrence of `www.`", provider inference is exactly as described: table
lookup by exact or dot-suffix match on the processed host, title-cased
second-level fallback, `"Unknown"` for a URL with no usable host.  The spec's
example URL maps to `"Hack The Box"`. -/
theorem provider_inference_characterized :
    (∀ url : String, parse_provider url = parse_provider_described url) ∧
    parse_provider "https://academy.hackthebox.com/cert" = "Hack The Box" ∧
    parse_provider "not a url" = "Unknown" := by
  refine ⟨fun url => ?_, by decide, by decide⟩
  unfold parse_provider parse_provider_described providerFallback providerByTable
  rw [lookupProvider_eq_find]

/-! ## Witnesses: the theorems' hypotheses hold at concrete inputs -/

/-- C2 (witness): the compatibility rule applied to a concrete record. -/
theorem subarea_domain_rule_witness :
    ("x.yaml" ++ ": sub_area " ++ qt (pyStr (VStr "GRC")) ++
        " is incompatible with domain_area " ++
        qt (pyStrOpt (some (VStr "Security Operations")))) ∈
      domainCompatErrors "x.yaml" (some (VStr "Security Operations")) [VStr "GRC"] :=
  (subarea_domain_rule.1 "x.yaml" (some (VStr "Security Operations")) [VStr "GRC"]).1
    (by decide) (VStr "GRC") (List.mem_singleton_self _) (by decide)

/-- C3 (witness): a concrete import run's first id names its file. -/
theorem import_run_ids_unique_witness :
    fileStem ("cert" ++ ".yaml") = "cert" :=
  import_run_ids_unique.2 ["!!!"] "cert" (by decide)

/-- C5 (witness): a used base yields the first free suffix. -/
theorem unique_id_first_free_witness :
    ∃ k, 2 ≤ k ∧ (unique_id "a" ["a"]).1 = candidateId "a" k ∧
      candidateId "a" k ∉ ["a"] ∧
      ∀ j, 2 ≤ j → j < k → candidateId "a" j ∈ ["a"] :=
  unique_id_first_free.2.1 "a" ["a"] (List.mem_singleton_self "a")

/-- C6 (witness): a valid slug is returned unchanged. -/
theorem slugify_idempotent_witness : slugify "abc-def" = "abc-def" :=
  slugify_idempotent.2 "abc-def" (by decide)
    (by show isSlugChar 'a' = true; decide) (by decide)

/-- C7 (witness): reading the same two records in either order rebuilds the
same index lists. -/
theorem rebuild_index_characterization_witness :
    rebuiltCertifications
        [⟨"b.yaml", some "IAM", none⟩, ⟨"a.yaml", none, some ["GRC"]⟩] =
      rebuiltCertifications
        [⟨"a.yaml", none, some ["GRC"]⟩, ⟨"b.yaml", some "IAM", none⟩] ∧
    orderedDomains
        [⟨"b.yaml", some "IAM", none⟩, ⟨"a.yaml", none, some ["GRC"]⟩] =
      orderedDomains
        [⟨"a.yaml", none, some ["GRC"]⟩, ⟨"b.yaml", some "IAM", none⟩] ∧
    orderedSubAreas
        [⟨"b.yaml", some "IAM", none⟩, ⟨"a.yaml", none, some ["GRC"]⟩] =
      orderedSubAreas
        [⟨"a.yaml", none, some ["GRC"]⟩, ⟨"b.yaml", some "IAM", none⟩] :=
  rebuild_index_characterization.2.2.2 _ _
    (List.Perm.swap (CertFile.mk "a.yaml" none (some ["GRC"]))
      (CertFile.mk "b.yaml" (some "IAM") none) [])

end CyberCerts
